import Mathlib

/-!
# blockpit-lido: the CSV report generator `writeCSV`

A shallow embedding of `writeCSV` from `main.go` together with models of the
Go standard-library functions it calls (`strconv.ParseInt`, `time.Unix`,
`Time.Format`, `big.Int.SetString`, `big.Float.SetInt/Quo/Text`,
`csv.Writer.Write`), followed by theorems about the rows it produces.

Go strings are modelled by Lean `String`s, machine integers by `Int`/`Nat` with
explicit wrap-around, fallible library calls by `Except`/`Option`, and the file
system by an oracle (`Env`) that decides which I/O operations succeed.
-/

namespace BlockpitLido

deriving instance DecidableEq for Except

/-! ## Data model (`main.go`, lines 18-69) -/

/-- The `Event` struct of `main.go`; every field is a string decoded from JSON
(an absent field decodes to the empty string). -/
structure Event where
  APR : String := ""
  Block : String := ""
  BlockTime : String := ""
  ID : String := ""
  LogIndex : String := ""
  TotalPooledEtherAfter : String := ""
  TotalPooledEtherBefore : String := ""
  TotalSharesAfter : String := ""
  TotalSharesBefore : String := ""
  EpochDays : String := ""
  EpochFullDays : String := ""
  Type_ : String := ""
  ReportShares : String := ""
  Balance : String := ""
  Rewards : String := ""
  Change : String := ""
  CurrencyChange : String := ""
deriving DecidableEq, Repr

/-- The package-level variable `headers` of `main.go`. -/
def headers : List String :=
  [ "Date (UTC)",
    "Integration Name",
    "Label",
    "Outgoing Asset",
    "Outgoing Amount",
    "Incoming Asset",
    "Incoming Amount",
    "Fee Asset (optional)",
    "Fee Amount (optional)",
    "Comment (optional)",
    "Trx. ID (optional)" ]

/-! ## `strconv`: decimal numerals -/

/-- The two causes carried by a `*strconv.NumError`: `ErrSyntax` and `ErrRange`. -/
inductive NumError where
  | syntax_ : NumError
  | range : NumError
deriving DecidableEq, Repr

/-- Value of an ASCII decimal digit, `c - '0'`. -/
def digitVal (c : Char) : Nat := c.toNat - 48

/-- The character of a decimal digit, `'0' + d`. -/
def digitChar (d : Nat) : Char := Char.ofNat (48 + d % 10)

/-- Largest `uint64`. -/
def maxUint64 : Nat := 2 ^ 64 - 1

/-- The digit loop of `strconv.ParseUint(s, 10, 64)`: `n` is the value read so
far.  A byte that is not a decimal digit is a syntax error (letters denote
digits 10 and above, which base 10 rejects; an underscore is only accepted for
base 0); a value that leaves the `uint64` range is a range error, reported as
soon as it is detected. -/
def parseUintLoop : List Char → Nat → Except NumError Nat
  | [], n => .ok n
  | c :: cs, n =>
    if c.isDigit then
      if n ≥ maxUint64 / 10 + 1 then .error .range
      else if n * 10 + digitVal c > maxUint64 then .error .range
      else parseUintLoop cs (n * 10 + digitVal c)
    else .error .syntax_

/-- Model of `strconv.ParseUint(s, 10, 64)`. -/
def ParseUint (s : List Char) : Except NumError Nat :=
  if s = [] then .error .syntax_ else parseUintLoop s 0

/-- Model of `strconv.ParseInt(s, 10, 64)`: an optional sign, then `ParseUint`,
then the range check against `cutoff = 1 << 63`. -/
def ParseInt (s : String) : Except NumError Int :=
  match s.toList with
  | [] => .error .syntax_
  | c :: cs =>
    let neg := c = '-'
    let rest := if c = '+' ∨ c = '-' then cs else c :: cs
    match ParseUint rest with
    | .error .syntax_ => .error .syntax_
    | .error .range => .error .range
    | .ok un =>
      if ¬ neg ∧ un ≥ 2 ^ 63 then .error .range
      else if neg ∧ un > 2 ^ 63 then .error .range
      else .ok (if neg then - (un : Int) else (un : Int))

/-- Decimal digits of `n`, most significant first, with `fuel` bounding the
number of digits produced. -/
def utoaAux : Nat → Nat → List Char → List Char
  | 0, _, acc => acc
  | fuel + 1, n, acc =>
    if n < 10 then digitChar n :: acc
    else utoaAux fuel (n / 10) (digitChar (n % 10) :: acc)

/-- Decimal numeral of a natural number (`"0"` for zero, no leading zeros). -/
def utoa (n : Nat) : List Char := utoaAux (n + 1) n []

/-- Left-pad a digit string with `'0'` up to `width` characters. -/
def zeroPad (width : Nat) (ds : List Char) : List Char :=
  List.replicate (width - ds.length) '0' ++ ds

/-! ## `time`: Unix seconds to a UTC calendar date (Go's `absDate` algorithm) -/

/-- Two's-complement wrap-around of `int64` arithmetic. -/
def wrapInt64 (x : Int) : Int := (x + 2 ^ 63) % 2 ^ 64 - 2 ^ 63

def secondsPerDay : Nat := 86400
def daysPer400Years : Nat := 365 * 400 + 97
def daysPer100Years : Nat := 365 * 100 + 24
def daysPer4Years : Nat := 365 * 4 + 1

/-- The year of Go's absolute epoch. -/
def absoluteZeroYear : Int := -292277022399

/-- Seconds from January 1 of year 1 to the Unix epoch. -/
def unixToInternal : Int := (1969 * 365 + 1969 / 4 - 1969 / 100 + 1969 / 400) * 86400

def internalToUnix : Int := - unixToInternal

/-- Seconds from the absolute epoch to January 1 of year 1:
`-(absoluteZeroYear - 1) * 365.2425 * secondsPerDay`. -/
def internalToAbsolute : Int := 292277022400 * 31556952

/-- A `time.Time` whose location is UTC and whose nanosecond part is zero: the
only times `writeCSV` builds.  `ext` is the `int64` count of seconds since
January 1 of year 1. -/
structure Time where
  ext : Int
deriving DecidableEq, Repr

/-- Model of `time.Unix(sec, 0)`; the addition is `int64` addition. -/
def Unix (sec : Int) : Time := ⟨wrapInt64 (sec + unixToInternal)⟩

/-- Model of `Time.UTC`: the instant is unchanged, only the location is set. -/
def Time.UTC (t : Time) : Time := t

def Time.unixSec (t : Time) : Int := wrapInt64 (t.ext + internalToUnix)

/-- Model of `Time.abs` for a UTC time: seconds since the absolute epoch as a
`uint64`. -/
def Time.abs (t : Time) : Nat :=
  ((t.unixSec + (unixToInternal + internalToAbsolute)) % 2 ^ 64).toNat

/-- Model of `isLeap`. -/
def isLeap (year : Int) : Bool :=
  year % 4 = 0 ∧ (year % 100 ≠ 0 ∨ year % 400 = 0)

/-- The table `daysBefore`: days in a non-leap year before month `m + 1`. -/
def daysBefore : List Nat := [0, 31, 59, 90, 120, 151, 181, 212, 243, 273, 304, 334, 365]

/-- The year and the day within the year computed by `absDate`. -/
def absYearDay (abs : Nat) : Int × Nat :=
  let d := abs / secondsPerDay
  -- Account for 400 year cycles.
  let n := d / daysPer400Years
  let y := 400 * n
  let d := d - daysPer400Years * n
  -- Cut off 100-year cycles.
  let n := d / daysPer100Years
  let n := n - n / 4
  let y := y + 100 * n
  let d := d - daysPer100Years * n
  -- Cut off 4-year cycles.
  let n := d / daysPer4Years
  let y := y + 4 * n
  let d := d - daysPer4Years * n
  -- Cut off years within a 4-year cycle.
  let n := d / 365
  let n := n - n / 4
  let y := y + n
  let d := d - 365 * n
  ((y : Int) + absoluteZeroYear, d)

/-- The month (January is 1) and the day of the month that `absDate` derives
from the leap flag of the year and the day within the year. -/
def absMonthDay (leap : Bool) (yday : Nat) : Nat × Nat :=
  if leap ∧ yday = 31 + 29 - 1 then (2, 29)
  else
    let day := if leap ∧ yday > 31 + 29 - 1 then yday - 1 else yday
    let month := day / 31
    let end_ := daysBefore.getD (month + 1) 0
    if day ≥ end_ then (month + 2, day - end_ + 1)
    else (month + 1, day - daysBefore.getD month 0 + 1)

/-- Model of `absDate(abs, true)`: year, month, day of month. -/
def absDate (abs : Nat) : Int × Nat × Nat :=
  ((absYearDay abs).1, absMonthDay (isLeap (absYearDay abs).1) (absYearDay abs).2)

/-- Model of `absClock`: hour, minute, second within the day. -/
def absClock (abs : Nat) : Nat × Nat × Nat :=
  let sec := abs % secondsPerDay
  let hour := sec / 3600
  let sec := sec - hour * 3600
  let min := sec / 60
  (hour, min, sec - min * 60)

/-- Model of `appendInt(b, x, width)`: the decimal form of `x`, zero-padded to
`width` digits, after a minus sign when `x` is negative. -/
def appendInt (x : Int) (width : Nat) : List Char :=
  (if x < 0 then ['-'] else []) ++ zeroPad width (utoa x.natAbs)

/-- The layout interpreter of `Time.Format`, restricted to the reference
elements that occur in the layouts of `writeCSV`: `2006` (year, four digits),
`01` (month), `02` (day), `15` (hour), `04` (minute), `05` (second), each
zero-padded to two digits; every other character stands for itself. -/
def formatLayout (year : Int) (month day hour min sec : Nat) : List Char → List Char
  | '2' :: '0' :: '0' :: '6' :: rest =>
    appendInt year 4 ++ formatLayout year month day hour min sec rest
  | '0' :: '1' :: rest => appendInt month 2 ++ formatLayout year month day hour min sec rest
  | '0' :: '2' :: rest => appendInt day 2 ++ formatLayout year month day hour min sec rest
  | '1' :: '5' :: rest => appendInt hour 2 ++ formatLayout year month day hour min sec rest
  | '0' :: '4' :: rest => appendInt min 2 ++ formatLayout year month day hour min sec rest
  | '0' :: '5' :: rest => appendInt sec 2 ++ formatLayout year month day hour min sec rest
  | c :: rest => c :: formatLayout year month day hour min sec rest
  | [] => []

/-- Model of `Time.Format(layout)`. -/
def Time.Format (t : Time) (layout : String) : String :=
  let date := absDate t.abs
  let clock := absClock t.abs
  String.mk (formatLayout date.1 date.2.1 date.2.2 clock.1 clock.2.1 clock.2.2 layout.toList)

/-! ## `math/big`: integers and binary floating point

`big.Int` values are Lean integers.  A `big.Float` is modelled by its value
`mant * 2 ^ exp` together with its precision; the word-level representation,
and the `uint32`/`int32` limits on precision and exponent (reached only by
numerals of several hundred million digits), are not modelled. -/

/-- Value of a string of decimal digits read from the left. -/
def decimalValue (ds : List Char) : Nat := ds.foldl (fun n c => n * 10 + digitVal c) 0

/-- Model of `new(big.Int).SetString(s, 10)`: an optional sign followed by at
least one decimal digit and nothing else; `none` stands for the `(nil, false)`
result. -/
def SetString (s : String) : Option Int :=
  match s.toList with
  | [] => none
  | c :: cs =>
    let rest := if c = '+' ∨ c = '-' then cs else c :: cs
    if rest = [] ∨ ¬ rest.all Char.isDigit then none
    else some (if c = '-' then - (decimalValue rest : Int) else (decimalValue rest : Int))

def bitLenAux : Nat → Nat → Nat
  | 0, _ => 0
  | fuel + 1, n => if n = 0 then 0 else bitLenAux fuel (n / 2) + 1

/-- Model of `BitLen`: the length of `n` in bits (0 for 0). -/
def bitLen (n : Nat) : Nat := bitLenAux n n

/-- The `form` of a `big.Float`. -/
inductive Form where
  | zero : Form
  | finite : Form
  | inf : Form
deriving DecidableEq, Repr

/-- A `big.Float`: for a finite form the value is `± mant * 2 ^ exp`. -/
structure BigFloat where
  prec : Nat
  neg : Bool
  form : Form
  mant : Nat
  exp : Int
deriving DecidableEq, Repr

/-- Model of `new(big.Float).SetInt(x)`: the precision becomes
`max(x.BitLen(), 64)`, so the value is exact. -/
def SetInt (x : Int) : BigFloat :=
  { prec := max (bitLen x.natAbs) 64
    neg := decide (x < 0)
    form := if x = 0 then .zero else .finite
    mant := x.natAbs
    exp := 0 }

/-- Model of `Float.round` in mode `ToNearestEven` for a mantissa `m` (with
exponent `e`) that may be longer than `prec` bits; `sbit` tells whether non-zero
bits below `m` were already discarded. -/
def roundMant (prec m : Nat) (e : Int) (sbit : Bool) : Nat × Int :=
  let bits := bitLen m
  if bits ≤ prec then (m, e)
  else
    let r := bits - prec - 1
    let rbit := decide ((m / 2 ^ r) % 2 = 1)
    let sbit := sbit || decide (m % 2 ^ r ≠ 0)
    let hi := m / 2 ^ (r + 1)
    let inc := rbit && (sbit || decide (hi % 2 = 1))
    (if inc then hi + 1 else hi, e + ((r + 1 : Nat) : Int))

/-- Model of `Float.uquo`: the quotient of two finite values, computed by an
integer division that delivers more than `prec` bits plus a sticky bit, then
rounded to `prec` bits. -/
def uquo (prec : Nat) (x y : BigFloat) : Nat × Int :=
  let s := prec + 1 + bitLen y.mant
  let q := (x.mant * 2 ^ s) / y.mant
  let r := (x.mant * 2 ^ s) % y.mant
  roundMant prec q (x.exp - y.exp - (s : Int)) (decide (r ≠ 0))

/-- Model of `new(big.Float).Quo(x, y)`: the result precision is the larger of
the operands' precisions and the rounding mode is `ToNearestEven`.  `none`
stands for the `ErrNaN` panic of `0/0` and `Inf/Inf`. -/
def Quo (x y : BigFloat) : Option BigFloat :=
  let prec := max x.prec y.prec
  let neg := x.neg != y.neg
  if x.form = .finite ∧ y.form = .finite then
    some { prec := prec, neg := neg, form := .finite,
           mant := (uquo prec x y).1, exp := (uquo prec x y).2 }
  else if (x.form = .zero ∧ y.form = .zero) ∨ (x.form = .inf ∧ y.form = .inf) then none
  else if x.form = .zero ∨ y.form = .inf then
    some { prec := prec, neg := neg, form := .zero, mant := 0, exp := 0 }
  else some { prec := prec, neg := neg, form := .inf, mant := 0, exp := 0 }

/-- Round `num / den` to the nearest integer, ties to even. -/
def roundHalfEven (num den : Nat) : Nat :=
  let q := num / den
  let r := num % den
  if 2 * r > den ∨ (2 * r = den ∧ q % 2 = 1) then q + 1 else q

/-- The magnitude of `x` in units of `10 ^ (-prec)`, rounded half to even: the
digits that `decimal.round` keeps for the format `'f'`. -/
def scaledDecimal (x : BigFloat) (prec : Nat) : Nat :=
  if x.form ≠ .finite then 0
  else if 0 ≤ x.exp then x.mant * 2 ^ x.exp.toNat * 10 ^ prec
  else roundHalfEven (x.mant * 10 ^ prec) (2 ^ (-x.exp).toNat)

/-- Model of `fmtF`: the integer digits, a dot, and `prec` fractional digits of
a number given in units of `10 ^ (-prec)`. -/
def fmtF (prec : Nat) (scaled : Nat) : List Char :=
  utoa (scaled / 10 ^ prec) ++
    (if prec > 0 then '.' :: zeroPad prec (utoa (scaled % 10 ^ prec)) else [])

/-- Model of `x.Text('f', prec)`. -/
def BigFloat.Text (x : BigFloat) (prec : Nat) : String :=
  String.mk ((if x.neg then ['-'] else []) ++
    (if x.form = .inf then (if x.neg then [] else ['+']) ++ ['I', 'n', 'f']
     else fmtF prec (scaledDecimal x prec)))

/-! ## `writeCSV` (`main.go`, lines 146-206) -/

/-- The environment: whether `os.Create` succeeds for a path, and whether the
`k`-th call of `writer.Write` (the header is call 0) succeeds. -/
structure Env where
  createOk : String → Bool
  writeOk : Nat → Bool

/-- The non-nil errors `writeCSV` returns, one per `fmt.Errorf` site. -/
inductive WriteError where
  | openingCsvFile : WriteError
  | writingCsvHeaders : WriteError
  | convertingToInt (blockTime : String) (cause : NumError) : WriteError
  | writingRow : WriteError
deriving DecidableEq, Repr

/-- How a call ends: it returns an `error` value (`none` is `nil`), or it
panics. -/
inductive Outcome where
  | returned (err : Option WriteError) : Outcome
  | panicked : Outcome
deriving DecidableEq, Repr

/-- What a run of `writeCSV` leaves behind: the records accepted by
`writer.Write` in order (they reach the file through the deferred `Flush`),
the lines logged, and the outcome. -/
structure Run where
  records : List (List String)
  logs : List String
  result : Outcome
deriving DecidableEq, Repr

/-- The amount computation of lines 182-186 for a parsed reward: `none` is a
panic inside `Quo`. -/
def rewardText (bigReward : Int) : Option String :=
  let bigRewardFloat := SetInt bigReward
  let decimalsInt : Int := 10 ^ 18
  let decimalsFloat := SetInt decimalsInt
  (Quo bigRewardFloat decimalsFloat).map (fun q => q.Text 18)

/-- The record assembled at lines 188-200. -/
def row (evDateStr integration label asset reward : String) : List String :=
  [evDateStr, integration, label, "", "", asset, reward, "", "", "Lido stETH staking reward", ""]

/-- The loop of lines 165-203; `k` is the number of `writer.Write` calls made
so far.  A `nil` result of `SetString` is logged and then dereferenced by
`SetInt`, which panics. -/
def eventLoop (env : Env) (year integration asset label : String) :
    Nat → List Event → Run
  | _, [] => ⟨[], [], .returned none⟩
  | k, e :: es =>
    match ParseInt e.BlockTime with
    | .error cause => ⟨[], [], .returned (some (.convertingToInt e.BlockTime cause))⟩
    | .ok t =>
      let evDate := (Unix t).UTC
      if year ≠ evDate.Format "2006" then eventLoop env year integration asset label k es
      else
        let evDateStr := evDate.Format "02-01-2006 15:04:05"
        match SetString e.Rewards with
        | none => ⟨[], ["could not set rewards"], .panicked⟩
        | some bigReward =>
          match rewardText bigReward with
          | none => ⟨[], [], .panicked⟩
          | some reward =>
            if env.writeOk k then
              let rest := eventLoop env year integration asset label (k + 1) es
              ⟨row evDateStr integration label asset reward :: rest.records, rest.logs,
                rest.result⟩
            else ⟨[], [], .returned (some .writingRow)⟩

/-- Lines 147-149: the path written to, `<year>-report.csv` by default. -/
def outPath (year out : String) : String :=
  if out = "" then year ++ "-report.csv" else out

/-- Model of `writeCSV(events, year, out, integration, asset, label)`. -/
def writeCSV (env : Env) (events : List Event)
    (year out integration asset label : String) : Run :=
  let out := outPath year out
  let opening := "writing data to " ++ out
  if ¬ env.createOk out then ⟨[], [opening], .returned (some .openingCsvFile)⟩
  else if ¬ env.writeOk 0 then ⟨[], [opening], .returned (some .writingCsvHeaders)⟩
  else
    let rest := eventLoop env year integration asset label 1 events
    ⟨headers :: rest.records, opening :: rest.logs, rest.result⟩

/-- An environment in which every file operation succeeds. -/
def okEnv : Env := ⟨fun _ => true, fun _ => true⟩

/-! ## Vocabulary of the statements -/

/-- The event passes the year filter of lines 166-174: its `blockTime` parses
and the year of that instant, formatted by `Format("2006")`, is `year`. -/
def inYear (year : String) (e : Event) : Bool :=
  match ParseInt e.BlockTime with
  | .ok t => decide ((Unix t).UTC.Format "2006" = year)
  | .error _ => false

/-- The Unix time of an event (0 when `blockTime` does not parse). -/
def blockTimeOf (e : Event) : Int :=
  match ParseInt e.BlockTime with
  | .ok t => t
  | .error _ => 0

/-- The record lines 176-200 assemble for an event (with 0 standing in for a
`blockTime` or `rewards` that does not parse). -/
def eventRecord (integration asset label : String) (e : Event) : List String :=
  row ((Unix (blockTimeOf e)).UTC.Format "02-01-2006 15:04:05") integration label asset
    ((rewardText ((SetString e.Rewards).getD 0)).getD "")

/-- Every file operation of the run succeeds. -/
def Env.allOk (env : Env) (year out : String) : Prop :=
  env.createOk (outPath year out) = true ∧ ∀ k, env.writeOk k = true

/-- Every `blockTime` of the list parses as a signed 64-bit decimal integer. -/
def timesParse (events : List Event) : Prop :=
  ∀ e ∈ events, ∃ t, ParseInt e.BlockTime = .ok t

/-- Every event that passes the year filter has a `rewards` string that
`SetString` accepts. -/
def rewardsParse (year : String) (events : List Event) : Prop :=
  ∀ e ∈ events, inYear year e = true → ∃ n, SetString e.Rewards = some n

/-! ## Reference definitions: the proleptic Gregorian calendar in UTC and the
decimal reading of an amount

These follow the wording of the specification and are what the code is
compared with. -/

/-- Number of days from 1970-01-01 to January 1 of year `Y`: 365 per year plus
one for every leap year in between. -/
def daysBeforeYear (Y : Int) : Int :=
  365 * (Y - 1970) + ((Y - 1) / 4 - (Y - 1) / 100 + (Y - 1) / 400) - 477

/-- Number of days of month `m` (1 to 12). -/
def daysInMonth (leap : Bool) (m : Nat) : Nat :=
  if m = 2 then (if leap then 29 else 28)
  else if m = 4 ∨ m = 6 ∨ m = 9 ∨ m = 11 then 30
  else 31

/-- Number of days of the year before the first of month `m`. -/
def daysBeforeMonth (leap : Bool) (m : Nat) : Nat :=
  ((List.range (m - 1)).map (fun i => daysInMonth leap (i + 1))).sum

/-- A calendar date and time of day that exists. -/
def validCivil (Y : Int) (M D h mi s : Nat) : Prop :=
  1 ≤ M ∧ M ≤ 12 ∧ 1 ≤ D ∧ D ≤ daysInMonth (isLeap Y) M ∧ h < 24 ∧ mi < 60 ∧ s < 60

/-- Unix time (seconds since 1970-01-01T00:00:00Z) of a UTC date and time. -/
def unixOfCivil (Y : Int) (M D h mi s : Nat) : Int :=
  (daysBeforeYear Y + daysBeforeMonth (isLeap Y) M + ((D : Int) - 1)) * 86400
    + h * 3600 + mi * 60 + s

/-- The instant `t` (Unix seconds) lies in the UTC calendar year `Y`. -/
def inUTCYear (t : Int) (Y : Int) : Prop :=
  daysBeforeYear Y * 86400 ≤ t ∧ t < daysBeforeYear (Y + 1) * 86400

instance (t Y : Int) : Decidable (inUTCYear t Y) := by
  unfold inUTCYear
  exact inferInstance

/-- Two decimal digits, zero-padded. -/
def pad2 (n : Nat) : List Char := [digitChar (n / 10), digitChar n]

/-- Four decimal digits, zero-padded. -/
def pad4 (n : Nat) : List Char :=
  [digitChar (n / 1000), digitChar (n / 100), digitChar (n / 10), digitChar n]

/-- Reading an amount back: the digits before the dot times `10 ^ 18` plus the
18 digits after it; `none` unless the string is digits, a dot and exactly 18
digits. -/
def parseAmount (s : String) : Option Nat :=
  let ip := s.toList.takeWhile (fun c => c ≠ '.')
  let fp := (s.toList.dropWhile (fun c => c ≠ '.')).drop 1
  if ip ≠ [] ∧ ip.all Char.isDigit ∧ fp.length = 18 ∧ fp.all Char.isDigit then
    some (decimalValue ip * 10 ^ 18 + decimalValue fp)
  else none

/-! ## Decimal numerals -/

theorem digitChar_toNat (d : Nat) : (digitChar d).toNat = 48 + d % 10 := by
  have h : d % 10 < 10 := Nat.mod_lt _ (by norm_num)
  unfold digitChar
  generalize d % 10 = r at h
  interval_cases r <;> rfl

theorem digitVal_digitChar (d : Nat) : digitVal (digitChar d) = d % 10 := by
  simp [digitVal, digitChar_toNat]

theorem digitChar_isDigit (d : Nat) : (digitChar d).isDigit = true := by
  have h : d % 10 < 10 := Nat.mod_lt _ (by norm_num)
  unfold digitChar
  generalize d % 10 = r at h
  interval_cases r <;> rfl

theorem utoaAux_acc : ∀ (fuel n : Nat) (acc : List Char),
    utoaAux fuel n acc = utoaAux fuel n [] ++ acc := by
  intro fuel
  induction fuel with
  | zero => intro n acc; simp [utoaAux]
  | succ f ih =>
    intro n acc
    unfold utoaAux
    split
    · simp
    · rw [ih (n / 10) (digitChar (n % 10) :: acc), ih (n / 10) [digitChar (n % 10)]]
      simp

theorem utoaAux_fuel : ∀ (f1 f2 n : Nat) (acc : List Char), n < f1 → n < f2 →
    utoaAux f1 n acc = utoaAux f2 n acc := by
  intro f1
  induction f1 with
  | zero => intro f2 n acc h; omega
  | succ f ih =>
    intro f2 n acc h1 h2
    cases f2 with
    | zero => omega
    | succ g =>
      unfold utoaAux
      split
      · rfl
      · exact ih g (n / 10) _ (by omega) (by omega)

theorem utoa_lt_ten (n : Nat) (h : n < 10) : utoa n = [digitChar n] := by
  simp [utoa, utoaAux, h]

theorem utoa_step (n : Nat) (h : 10 ≤ n) : utoa n = utoa (n / 10) ++ [digitChar (n % 10)] := by
  have h1 : ¬ n < 10 := by omega
  unfold utoa
  rw [utoaAux, if_neg h1, utoaAux_acc]
  rw [utoaAux_fuel n (n / 10 + 1) (n / 10) [] (by omega) (by omega)]

theorem decimalValue_append (l : List Char) (c : Char) :
    decimalValue (l ++ [c]) = decimalValue l * 10 + digitVal c := by
  simp [decimalValue, List.foldl_append]

theorem decimalValue_utoa (n : Nat) : decimalValue (utoa n) = n := by
  induction n using Nat.strong_induction_on with
  | _ n ih =>
    by_cases h : n < 10
    · rw [utoa_lt_ten n h]
      simp [decimalValue, digitVal_digitChar]
      omega
    · rw [utoa_step n (by omega), decimalValue_append, ih (n / 10) (by omega),
        digitVal_digitChar]
      omega

theorem utoa_all_digits (n : Nat) : ∀ c ∈ utoa n, c.isDigit = true := by
  induction n using Nat.strong_induction_on with
  | _ n ih =>
    by_cases h : n < 10
    · rw [utoa_lt_ten n h]
      intro c hc
      simp at hc
      subst hc
      exact digitChar_isDigit n
    · rw [utoa_step n (by omega)]
      intro c hc
      rcases List.mem_append.mp hc with hc | hc
      · exact ih (n / 10) (by omega) c hc
      · simp at hc
        subst hc
        exact digitChar_isDigit _

theorem utoa_length_pos (n : Nat) : 0 < (utoa n).length := by
  by_cases h : n < 10
  · rw [utoa_lt_ten n h]; simp
  · rw [utoa_step n (by omega)]; simp

theorem utoa_length_le : ∀ (k n : Nat), n < 10 ^ (k + 1) → (utoa n).length ≤ k + 1 := by
  intro k
  induction k with
  | zero =>
    intro n h
    rw [utoa_lt_ten n (by simpa using h)]
    simp
  | succ k ih =>
    intro n h
    by_cases h10 : n < 10
    · rw [utoa_lt_ten n h10]
      simp
    · rw [utoa_step n (by omega)]
      have : n / 10 < 10 ^ (k + 1) := by
        rw [Nat.div_lt_iff_lt_mul (by norm_num)]
        calc n < 10 ^ (k + 1 + 1) := h
          _ = 10 ^ (k + 1) * 10 := by ring
      have := ih (n / 10) this
      simp
      omega

theorem utoa_length_gt : ∀ (k n : Nat), 10 ^ k ≤ n → k < (utoa n).length := by
  intro k
  induction k with
  | zero => intro n _; exact utoa_length_pos n
  | succ k ih =>
    intro n h
    have h10 : 10 ≤ n := by
      calc 10 = 10 ^ 1 := by norm_num
        _ ≤ 10 ^ (k + 1) := Nat.pow_le_pow_right (by norm_num) (by omega)
        _ ≤ n := h
    rw [utoa_step n h10]
    have : 10 ^ k ≤ n / 10 := by
      rw [Nat.le_div_iff_mul_le (by norm_num)]
      calc 10 ^ k * 10 = 10 ^ (k + 1) := by ring
        _ ≤ n := h
    have := ih (n / 10) this
    simp
    omega

/-! ## The calendar computed by `absDate` -/

theorem daysBeforeYear_succ (Y : Int) :
    daysBeforeYear (Y + 1) = daysBeforeYear Y + (if isLeap Y then 366 else 365) := by
  unfold daysBeforeYear isLeap
  split <;> rename_i h <;> simp at h <;> omega


theorem absYearDay_stages (d a d1 b0 b d2 c d3 e0 e d4 : Nat)
    (ha : a = d / 146097) (hd1 : d1 = d - 146097 * a)
    (hb0 : b0 = d1 / 36524) (hb : b = b0 - b0 / 4) (hd2 : d2 = d1 - 36524 * b)
    (hc : c = d2 / 1461) (hd3 : d3 = d2 - 1461 * c)
    (he0 : e0 = d3 / 365) (he : e = e0 - e0 / 4) (hd4 : d4 = d3 - 365 * e) :
    d = 146097 * a + 36524 * b + 1461 * c + 365 * e + d4 ∧
    b ≤ 3 ∧ c ≤ 24 ∧ e ≤ 3 ∧
    (d4 < 365 ∨ (d4 = 365 ∧ e = 3 ∧ (c < 24 ∨ b = 3))) := by
  have h1 : d1 < 146097 ∧ d = 146097 * a + d1 := by omega
  have h2 : b ≤ 3 ∧ d1 = 36524 * b + d2 ∧ (d2 < 36524 ∨ (b = 3 ∧ d2 = 36524)) := by omega
  have h3 : c ≤ 24 ∧ d2 = 1461 * c + d3 ∧ d3 < 1461 := by omega
  have h4 : e ≤ 3 ∧ d3 = 365 * e + d4 ∧ (d4 < 365 ∨ (e = 3 ∧ d4 = 365)) := by omega
  clear ha hd1 hb0 hb hd2 hc hd3 he0 he hd4
  omega

theorem absYearDay_eq (abs : Nat) :
    ∃ a b c e d4 : Nat,
      absYearDay abs = ((400 * a + 100 * b + 4 * c + e : Nat) + absoluteZeroYear, d4) ∧
      abs / 86400 = 146097 * a + 36524 * b + 1461 * c + 365 * e + d4 ∧
      b ≤ 3 ∧ c ≤ 24 ∧ e ≤ 3 ∧
      (d4 < 365 ∨ (d4 = 365 ∧ e = 3 ∧ (c < 24 ∨ b = 3))) := by
  refine ⟨_, _, _, _, _, ?_, absYearDay_stages (abs / 86400) _ _ _ _ _ _ _ _ _ _
    rfl rfl rfl rfl rfl rfl rfl rfl rfl rfl⟩
  simp only [absYearDay, secondsPerDay, daysPer400Years, daysPer100Years, daysPer4Years]

theorem absYearDay_spec (abs : Nat) :
    (daysBeforeYear (absYearDay abs).1 + 106751991073094 : Int) + (absYearDay abs).2
      = (abs / 86400 : Nat) ∧
    (absYearDay abs).2 < (if isLeap (absYearDay abs).1 then 366 else 365) := by
  obtain ⟨a, b, c, e, d4, h, hd, hb, hc, he, hd4⟩ := absYearDay_eq abs
  rw [h, hd]
  simp only [daysBeforeYear, isLeap, absoluteZeroYear]
  constructor
  · push_cast
    omega
  · split <;> rename_i hl <;> simp at hl <;> omega

/-! ## Month, day and clock -/

set_option maxRecDepth 100000 in
theorem absMonthDay_spec_aux (leap : Bool) :
    ∀ yday < 366, yday < (if leap then 366 else 365) →
      1 ≤ (absMonthDay leap yday).1 ∧ (absMonthDay leap yday).1 ≤ 12 ∧
      1 ≤ (absMonthDay leap yday).2 ∧
      (absMonthDay leap yday).2 ≤ daysInMonth leap (absMonthDay leap yday).1 ∧
      daysBeforeMonth leap (absMonthDay leap yday).1 + (absMonthDay leap yday).2 = yday + 1 := by
  cases leap <;> decide

theorem absMonthDay_spec (leap : Bool) (yday : Nat) (h : yday < (if leap then 366 else 365)) :
    1 ≤ (absMonthDay leap yday).1 ∧ (absMonthDay leap yday).1 ≤ 12 ∧
    1 ≤ (absMonthDay leap yday).2 ∧
    (absMonthDay leap yday).2 ≤ daysInMonth leap (absMonthDay leap yday).1 ∧
    daysBeforeMonth leap (absMonthDay leap yday).1 + (absMonthDay leap yday).2 = yday + 1 := by
  have h366 : yday < 366 := by
    split at h <;> omega
  exact absMonthDay_spec_aux leap yday h366 h

theorem absClock_spec (abs : Nat) :
    (absClock abs).1 < 24 ∧ (absClock abs).2.1 < 60 ∧ (absClock abs).2.2 < 60 ∧
    (absClock abs).1 * 3600 + (absClock abs).2.1 * 60 + (absClock abs).2.2 = abs % 86400 := by
  simp only [absClock, secondsPerDay]
  omega

/-- The absolute time of `time.Unix(t, 0).UTC()` for an `int64` `t`: the offset
to the absolute epoch is added modulo `2 ^ 64`. -/
theorem Unix_abs (t : Int) :
    ((Unix t).UTC.abs : Int) = (t + 9223372028715321600) % 2 ^ 64 := by
  simp only [Unix, Time.UTC, Time.abs, Time.unixSec, wrapInt64, unixToInternal, internalToUnix,
    internalToAbsolute]
  norm_num
  omega

theorem Unix_abs_of_ge (t : Int) (h1 : -9223372028715321600 ≤ t) (h2 : t < 2 ^ 63) :
    ((Unix t).UTC.abs : Int) = t + 9223372028715321600 := by
  rw [Unix_abs t]
  norm_num at h2 ⊢
  omega

theorem Unix_abs_of_lt (t : Int) (h1 : -2 ^ 63 ≤ t) (h2 : t < -9223372028715321600) :
    ((Unix t).UTC.abs : Int) = t + 9223372028715321600 + 2 ^ 64 := by
  rw [Unix_abs t]
  norm_num at h1 ⊢
  omega

/-- For a timestamp that `time.Unix` represents without wrap-around, `absDate`
and `absClock` return the UTC calendar date and time of day of that instant. -/
theorem absDate_civil (t : Int) (h1 : -9223372028715321600 ≤ t) (h2 : t < 2 ^ 63) :
    validCivil (absDate (Unix t).UTC.abs).1 (absDate (Unix t).UTC.abs).2.1
      (absDate (Unix t).UTC.abs).2.2 (absClock (Unix t).UTC.abs).1
      (absClock (Unix t).UTC.abs).2.1 (absClock (Unix t).UTC.abs).2.2 ∧
    unixOfCivil (absDate (Unix t).UTC.abs).1 (absDate (Unix t).UTC.abs).2.1
      (absDate (Unix t).UTC.abs).2.2 (absClock (Unix t).UTC.abs).1
      (absClock (Unix t).UTC.abs).2.1 (absClock (Unix t).UTC.abs).2.2 = t ∧
    inUTCYear t (absDate (Unix t).UTC.abs).1 := by
  have habs := Unix_abs_of_ge t h1 h2
  generalize (Unix t).UTC.abs = abs at habs ⊢
  obtain ⟨hy1, hy2⟩ := absYearDay_spec abs
  obtain ⟨hm1, hm2, hm3, hm4, hm5⟩ :=
    absMonthDay_spec (isLeap (absYearDay abs).1) (absYearDay abs).2 hy2
  obtain ⟨hc1, hc2, hc3, hc4⟩ := absClock_spec abs
  have hsucc := daysBeforeYear_succ (absYearDay abs).1
  simp only [absDate, validCivil, unixOfCivil, inUTCYear]
  generalize absMonthDay (isLeap (absYearDay abs).1) (absYearDay abs).2 = md at *
  generalize absClock abs = cl at *
  generalize daysBeforeMonth (isLeap (absYearDay abs).1) md.1 = dbm at *
  generalize daysInMonth (isLeap (absYearDay abs).1) md.1 = dim at *
  rw [hsucc]
  generalize daysBeforeYear (absYearDay abs).1 = dby at *
  have hlen : ((if isLeap (absYearDay abs).1 = true then 366 else 365 : Int)) =
      ((if isLeap (absYearDay abs).1 = true then 366 else 365 : Nat) : Int) := by
    split <;> rfl
  rw [hlen]
  generalize (if isLeap (absYearDay abs).1 = true then 366 else 365 : Nat) = ylen at *
  generalize (absYearDay abs).2 = yday at *
  refine ⟨⟨hm1, hm2, hm3, hm4, hc1, hc2, hc3⟩, ?_, ?_, ?_⟩ <;> omega

/-- Where `time.Unix` wraps around (timestamps more than about 292 billion
years before 1970), the year `absDate` reports has more than four digits. -/
theorem absDate_year_of_wrap (t : Int) (h1 : -2 ^ 63 ≤ t) (h2 : t < -9223372028715321600) :
    9999 < (absDate (Unix t).UTC.abs).1 := by
  have habs := Unix_abs_of_lt t h1 h2
  generalize (Unix t).UTC.abs = abs at habs ⊢
  obtain ⟨hy1, hy2⟩ := absYearDay_spec abs
  have hlen : (absYearDay abs).2 < 366 := by
    split at hy2 <;> omega
  simp only [absDate]
  generalize (absYearDay abs).2 = yday at *
  generalize (absYearDay abs).1 = Y at *
  simp only [daysBeforeYear] at hy1
  norm_num at h1 habs
  omega

theorem daysBeforeYear_mono (a b : Int) (h : a ≤ b) : daysBeforeYear a ≤ daysBeforeYear b := by
  simp only [daysBeforeYear]
  omega

theorem inUTCYear_unique (t Y1 Y2 : Int) (h1 : inUTCYear t Y1) (h2 : inUTCYear t Y2) :
    Y1 = Y2 := by
  obtain ⟨a1, b1⟩ := h1
  obtain ⟨a2, b2⟩ := h2
  by_contra hne
  rcases lt_or_gt_of_ne hne with h | h
  · have := daysBeforeYear_mono (Y1 + 1) Y2 (by omega)
    omega
  · have := daysBeforeYear_mono (Y2 + 1) Y1 (by omega)
    omega

/-! ## Formatting -/

theorem digitChar_digitVal (c : Char) (h : c.isDigit = true) : digitChar (digitVal c) = c := by
  have h2 : 48 ≤ c.toNat ∧ c.toNat ≤ 57 := by
    simp only [Char.isDigit, Bool.and_eq_true, decide_eq_true_eq] at h
    exact ⟨h.1, h.2⟩
  have h3 : 48 + (c.toNat - 48) % 10 = c.toNat := by omega
  simp only [digitChar, digitVal, h3]
  exact Char.ofNat_toNat c

theorem digitChar_mod (d : Nat) : digitChar (d % 10) = digitChar d := by
  simp [digitChar]

theorem zeroPad_of_length (w : Nat) (ds : List Char) (h : w ≤ ds.length) : zeroPad w ds = ds := by
  simp [zeroPad, Nat.sub_eq_zero_of_le h]

theorem zeroPad_length (w : Nat) (ds : List Char) (h : ds.length ≤ w) :
    (zeroPad w ds).length = w := by
  simp [zeroPad]
  omega

theorem utoa_two_digits (n : Nat) (h1 : 10 ≤ n) (h2 : n < 100) :
    utoa n = [digitChar (n / 10), digitChar n] := by
  rw [utoa_step n h1, utoa_lt_ten (n / 10) (by omega), digitChar_mod]
  rfl

theorem utoa_three_digits (n : Nat) (h1 : 100 ≤ n) (h2 : n < 1000) :
    utoa n = [digitChar (n / 100), digitChar (n / 10), digitChar n] := by
  rw [utoa_step n (by omega), utoa_two_digits (n / 10) (by omega) (by omega), digitChar_mod,
    Nat.div_div_eq_div_mul]
  rfl

theorem utoa_four_digits (n : Nat) (h1 : 1000 ≤ n) (h2 : n < 10000) :
    utoa n = [digitChar (n / 1000), digitChar (n / 100), digitChar (n / 10), digitChar n] := by
  rw [utoa_step n (by omega), utoa_three_digits (n / 10) (by omega) (by omega), digitChar_mod,
    Nat.div_div_eq_div_mul, Nat.div_div_eq_div_mul]
  rfl

theorem digitChar_of_div_zero (n k : Nat) (h : n / k = 0) : digitChar (n / k) = '0' := by
  rw [h]
  rfl

theorem zeroPad_two_utoa (n : Nat) (h : n < 100) : zeroPad 2 (utoa n) = pad2 n := by
  by_cases h10 : n < 10
  · rw [utoa_lt_ten n h10]
    simp [zeroPad, pad2, digitChar_of_div_zero n 10 (by omega)]
  · rw [utoa_two_digits n (by omega) h]
    rfl

theorem zeroPad_four_utoa (n : Nat) (h : n < 10000) : zeroPad 4 (utoa n) = pad4 n := by
  by_cases h10 : n < 10
  · rw [utoa_lt_ten n h10]
    simp [zeroPad, pad4, digitChar_of_div_zero n 10 (by omega),
      digitChar_of_div_zero n 100 (by omega), digitChar_of_div_zero n 1000 (by omega),
      List.replicate]
  · by_cases h100 : n < 100
    · rw [utoa_two_digits n (by omega) h100]
      simp [zeroPad, pad4, digitChar_of_div_zero n 100 (by omega),
        digitChar_of_div_zero n 1000 (by omega), List.replicate]
    · by_cases h1000 : n < 1000
      · rw [utoa_three_digits n (by omega) h1000]
        simp [zeroPad, pad4, digitChar_of_div_zero n 1000 (by omega), List.replicate]
      · rw [utoa_four_digits n (by omega) h]
        rfl

theorem appendInt_two (n : Nat) (h : n < 100) : appendInt (n : Int) 2 = pad2 n := by
  have hn : ¬ ((n : Int) < 0) := by omega
  simp [appendInt, hn, zeroPad_two_utoa n h]

theorem appendInt_four (n : Nat) (h : n < 10000) : appendInt (n : Int) 4 = pad4 n := by
  have hn : ¬ ((n : Int) < 0) := by omega
  simp [appendInt, hn, zeroPad_four_utoa n h]

theorem zeroPad_length_ge (w : Nat) (ds : List Char) : w ≤ (zeroPad w ds).length := by
  simp [zeroPad]
  omega

/-- A year that `appendInt(year, 4)` renders in four characters lies in
`0..9999`. -/
theorem appendInt_four_length (x : Int) (h : (appendInt x 4).length = 4) :
    0 ≤ x ∧ x < 10000 := by
  by_cases hneg : x < 0
  · have := zeroPad_length_ge 4 (utoa x.natAbs)
    simp [appendInt, hneg] at h
    omega
  · refine ⟨by omega, ?_⟩
    by_contra hbig
    have hlen := utoa_length_gt 4 x.natAbs (by omega)
    simp [appendInt, hneg, zeroPad_of_length 4 (utoa x.natAbs) (by omega)] at h
    omega

theorem decimalValue_pad4 (n : Nat) (h : n < 10000) : decimalValue (pad4 n) = n := by
  simp [decimalValue, pad4, digitVal_digitChar]
  omega

/-- A string of four decimal digits is the four-digit numeral of its value. -/
theorem four_digits_eq_pad4 (l : List Char) (hlen : l.length = 4)
    (hdig : ∀ c ∈ l, c.isDigit = true) :
    decimalValue l < 10000 ∧ l = pad4 (decimalValue l) := by
  match l, hlen with
  | [a, b, c, d], _ =>
    have ha := hdig a (by simp)
    have hb := hdig b (by simp)
    have hc := hdig c (by simp)
    have hd := hdig d (by simp)
    have va : digitVal a < 10 := by rw [← digitChar_digitVal a ha, digitVal_digitChar]; omega
    have vb : digitVal b < 10 := by rw [← digitChar_digitVal b hb, digitVal_digitChar]; omega
    have vc : digitVal c < 10 := by rw [← digitChar_digitVal c hc, digitVal_digitChar]; omega
    have vd : digitVal d < 10 := by rw [← digitChar_digitVal d hd, digitVal_digitChar]; omega
    have hv : decimalValue [a, b, c, d]
        = ((digitVal a * 10 + digitVal b) * 10 + digitVal c) * 10 + digitVal d := by
      simp [decimalValue]
    refine ⟨by omega, ?_⟩
    simp only [pad4]
    rw [← digitChar_mod (_ / 1000), ← digitChar_mod (_ / 100), ← digitChar_mod (_ / 10),
      ← digitChar_mod (decimalValue _)]
    have e1 : decimalValue [a, b, c, d] / 1000 % 10 = digitVal a := by omega
    have e2 : decimalValue [a, b, c, d] / 100 % 10 = digitVal b := by omega
    have e3 : decimalValue [a, b, c, d] / 10 % 10 = digitVal c := by omega
    have e4 : decimalValue [a, b, c, d] % 10 = digitVal d := by omega
    rw [e1, e2, e3, e4, digitChar_digitVal a ha, digitChar_digitVal b hb,
      digitChar_digitVal c hc, digitChar_digitVal d hd]

theorem Format_2006 (t : Time) :
    t.Format "2006" = String.mk (appendInt (absDate t.abs).1 4) := by
  have h : ∀ y mo d h mi s, formatLayout y mo d h mi s "2006".toList = appendInt y 4 ++ [] :=
    fun _ _ _ _ _ _ => rfl
  simp only [Time.Format, h, List.append_nil]

theorem Format_dateTime (t : Time) :
    t.Format "02-01-2006 15:04:05" = String.mk
      (appendInt (absDate t.abs).2.2 2 ++ '-' :: (appendInt (absDate t.abs).2.1 2 ++ '-' ::
        (appendInt (absDate t.abs).1 4 ++ ' ' :: (appendInt (absClock t.abs).1 2 ++ ':' ::
          (appendInt (absClock t.abs).2.1 2 ++ ':' :: appendInt (absClock t.abs).2.2 2))))) := by
  have h : ∀ y mo d h mi s, formatLayout y mo d h mi s "02-01-2006 15:04:05".toList
      = appendInt d 2 ++ ('-' :: (appendInt mo 2 ++ ('-' :: (appendInt y 4 ++ (' ' ::
          (appendInt h 2 ++ (':' :: (appendInt mi 2 ++ (':' :: (appendInt s 2 ++ [])))))))))) :=
    fun _ _ _ _ _ _ => rfl
  simp only [Time.Format, h, List.append_nil]

/-- The year filter agrees with the calendar: for an `int64` timestamp and a
requested year written with four decimal digits, `Format("2006")` equals the
requested string exactly when the instant lies in that UTC year. -/
theorem Format_2006_eq_iff (t : Int) (h1 : -2 ^ 63 ≤ t) (h2 : t < 2 ^ 63) (year : String)
    (hlen : year.length = 4) (hdig : ∀ c ∈ year.toList, c.isDigit = true) :
    (Unix t).UTC.Format "2006" = year ↔ inUTCYear t (decimalValue year.toList) := by
  obtain ⟨hv, hpad⟩ := four_digits_eq_pad4 year.toList (by simpa using hlen) hdig
  have hyear : year = String.mk (pad4 (decimalValue year.toList)) := by
    rw [← hpad]
    cases year
    rfl
  rw [Format_2006]
  constructor
  · intro h
    have hl : (appendInt (absDate (Unix t).UTC.abs).1 4).length = 4 := by
      have := congrArg String.length h
      simpa [hlen] using this
    obtain ⟨hy0, hy1⟩ := appendInt_four_length _ hl
    have hnowrap : -9223372028715321600 ≤ t := by
      by_contra hlt
      have := absDate_year_of_wrap t h1 (by omega)
      omega
    obtain ⟨_, _, hin⟩ := absDate_civil t hnowrap h2
    obtain ⟨n, hn⟩ := Int.eq_ofNat_of_zero_le hy0
    rw [hn] at h hin hy1
    rw [appendInt_four n (by omega)] at h
    have : decimalValue year.toList = n := by
      rw [← h]
      exact decimalValue_pad4 n (by omega)
    rw [this]
    exact hin
  · intro hin
    have hnowrap : -9223372028715321600 ≤ t := by
      obtain ⟨a, _⟩ := hin
      have := daysBeforeYear_mono 0 (decimalValue year.toList) (by omega)
      simp only [daysBeforeYear] at this a
      omega
    obtain ⟨_, _, hin2⟩ := absDate_civil t hnowrap h2
    have := inUTCYear_unique t _ _ hin2 hin
    rw [this, appendInt_four _ hv]
    exact hyear.symm

theorem ParseInt_range (s : String) (t : Int) (h : ParseInt s = .ok t) :
    -2 ^ 63 ≤ t ∧ t < 2 ^ 63 := by
  unfold ParseInt at h
  split at h
  · simp at h
  · simp only [] at h
    split at h
    · simp at h
    · simp at h
    · rename_i un _
      split at h
      · simp at h
      · split at h
        · simp at h
        · rename_i hpos hneg
          simp only [Except.ok.injEq] at h
          subst h
          norm_num at hpos hneg ⊢
          split <;> rename_i hc
          · have := hneg hc
            omega
          · have := hpos hc
            omega

/-! ## Bit length and rounding -/

theorem bitLenAux_spec : ∀ (fuel n : Nat), n ≤ fuel →
    n < 2 ^ bitLenAux fuel n ∧ (n ≠ 0 → 2 ^ (bitLenAux fuel n - 1) ≤ n) := by
  intro fuel
  induction fuel with
  | zero =>
    intro n h
    have : n = 0 := by omega
    subst this
    simp [bitLenAux]
  | succ f ih =>
    intro n h
    unfold bitLenAux
    split
    · rename_i h0
      subst h0
      simp
    · rename_i h0
      obtain ⟨h1, h2⟩ := ih (n / 2) (by omega)
      constructor
      · rw [pow_succ]
        omega
      · intro _
        by_cases hn : n / 2 = 0
        · have : bitLenAux f (n / 2) = 0 := by
            rw [hn]
            cases f <;> simp [bitLenAux]
          rw [this]
          simp
          omega
        · have h3 := h2 hn
          have hpos : 0 < bitLenAux f (n / 2) := by
            by_contra hz
            have : bitLenAux f (n / 2) = 0 := by omega
            rw [this] at h1
            simp at h1
            exact hn h1
          have : bitLenAux f (n / 2) + 1 - 1 = (bitLenAux f (n / 2) - 1) + 1 := by omega
          rw [this, pow_succ]
          omega

theorem lt_two_pow_bitLen (n : Nat) : n < 2 ^ bitLen n :=
  (bitLenAux_spec n n (le_refl n)).1

theorem two_pow_bitLen_le (n : Nat) (h : n ≠ 0) : 2 ^ (bitLen n - 1) ≤ n :=
  (bitLenAux_spec n n (le_refl n)).2 h

/-- The bit length is the least exponent whose power of two exceeds `n`. -/
theorem bitLen_le_of_lt (n k : Nat) (h : n < 2 ^ k) : bitLen n ≤ k := by
  by_cases h0 : n = 0
  · subst h0
    simp [bitLen, bitLenAux]
  · by_contra hlt
    have h1 := two_pow_bitLen_le n h0
    have h2 : 2 ^ k ≤ 2 ^ (bitLen n - 1) := Nat.pow_le_pow_right (by norm_num) (by omega)
    omega

theorem lt_bitLen_of_le (n k : Nat) (h : 2 ^ k ≤ n) : k < bitLen n := by
  by_contra hlt
  have h1 := lt_two_pow_bitLen n
  have h2 : 2 ^ bitLen n ≤ 2 ^ k := Nat.pow_le_pow_right (by norm_num) (by omega)
  omega

/-- Arithmetic of rounding to nearest, ties to even: `q` is the integer part of
`num / den`, `r` the remainder, and the lowest `2 * H` of `q` is cut off.  The
rounded mantissa `m`, scaled back, is within half a unit of `num / den`. -/
theorem round_nearest_even_error (q H den r m : Nat) (hH : 0 < H) (hr : r < den)
    (hm : m = if (q / H) % 2 = 1 ∧ (r ≠ 0 ∨ q % H ≠ 0 ∨ (q / (2 * H)) % 2 = 1)
      then q / (2 * H) + 1 else q / (2 * H)) :
    2 * (m * (2 * H) * den) ≤ 2 * (q * den + r) + 2 * H * den ∧
    2 * (q * den + r) ≤ 2 * (m * (2 * H) * den) + 2 * H * den := by
  obtain ⟨hi, hhi⟩ : ∃ hi, q / (2 * H) = hi := ⟨_, rfl⟩
  obtain ⟨lo, hlo⟩ : ∃ lo, q % (2 * H) = lo := ⟨_, rfl⟩
  have hq : q = hi * (2 * H) + lo := by
    rw [← hhi, ← hlo]
    exact (Nat.div_add_mod' q (2 * H)).symm
  have hlo2 : lo < 2 * H := by
    rw [← hlo]
    exact Nat.mod_lt _ (by omega)
  rw [hhi] at hm
  have hA3 : lo * den + den ≤ 2 * (H * den) := by
    have := Nat.mul_le_mul_right den (Nat.succ_le_of_lt hlo2)
    have e1 : (lo + 1) * den = lo * den + den := by ring
    have e2 : 2 * H * den = 2 * (H * den) := by ring
    rw [Nat.succ_eq_add_one, e1, e2] at this
    exact this
  have hqd : q * den = hi * (2 * (H * den)) + lo * den := by
    rw [hq]
    ring
  have hmd : ∀ x : Nat, x * (2 * H) * den = x * (2 * (H * den)) := fun x => by ring
  have hHd : 2 * H * den = 2 * (H * den) := by ring
  rw [hqd, hmd, hHd]
  by_cases hlt : lo < H
  · have hdiv : q / H = 2 * hi := by
      apply Nat.div_eq_of_lt_le
      · rw [hq]
        nlinarith
      · rw [hq]
        nlinarith
    have hm2 : m = hi := by
      rw [hm, hdiv, if_neg]
      intro h
      omega
    have h1 : lo * den + den ≤ H * den := by
      have := Nat.mul_le_mul_right den (Nat.succ_le_of_lt hlt)
      have e1 : (lo + 1) * den = lo * den + den := by ring
      rw [Nat.succ_eq_add_one, e1] at this
      exact this
    rw [hm2]
    generalize hi * (2 * (H * den)) = P
    generalize lo * den = A at *
    generalize H * den = B at *
    constructor <;> omega
  · have hge : H ≤ lo := by omega
    have h2 : H * den ≤ lo * den := Nat.mul_le_mul_right den hge
    have hdiv : q / H = 2 * hi + 1 := by
      apply Nat.div_eq_of_lt_le
      · rw [hq]
        nlinarith
      · rw [hq]
        nlinarith
    have hmod : q % H = lo - H := by
      have h3 := Nat.div_add_mod q H
      rw [hdiv] at h3
      have h4 : H * (2 * hi + 1) = hi * (2 * H) + H := by ring
      rw [h4] at h3
      omega
    by_cases hinc : r ≠ 0 ∨ q % H ≠ 0 ∨ hi % 2 = 1
    · have hm2 : m = hi + 1 := by
        rw [hm, hdiv, if_pos]
        exact ⟨by omega, hinc⟩
      have hsucc : (hi + 1) * (2 * (H * den)) = hi * (2 * (H * den)) + 2 * (H * den) := by
        ring
      rw [hm2, hsucc]
      generalize hi * (2 * (H * den)) = P
      generalize lo * den = A at *
      generalize H * den = B at *
      constructor <;> omega
    · have hm2 : m = hi := by
        rw [hm, hdiv, if_neg]
        intro h
        exact hinc h.2
      have hr0 : r = 0 := by
        by_contra h
        exact hinc (Or.inl h)
      have hloH : lo = H := by
        by_contra h
        exact hinc (Or.inr (Or.inl (by omega)))
      rw [hm2, hr0, hloH]
      generalize hi * (2 * (H * den)) = P
      generalize H * den = B at *
      constructor <;> omega

theorem roundMant_eq (prec q : Nat) (e : Int) (sb : Bool) (hlen : prec < bitLen q) :
    roundMant prec q e sb =
      (if (q / 2 ^ (bitLen q - prec - 1)) % 2 = 1 ∧
          (sb = true ∨ q % 2 ^ (bitLen q - prec - 1) ≠ 0 ∨
            (q / (2 * 2 ^ (bitLen q - prec - 1))) % 2 = 1)
        then q / (2 * 2 ^ (bitLen q - prec - 1)) + 1
        else q / (2 * 2 ^ (bitLen q - prec - 1)),
       e + ((bitLen q - prec : Nat) : Int)) := by
  have hnle : ¬ bitLen q ≤ prec := by omega
  have h1 : bitLen q - prec - 1 + 1 = bitLen q - prec := by omega
  have h2 : 2 ^ (bitLen q - prec - 1 + 1) = 2 * 2 ^ (bitLen q - prec - 1) := by
    rw [pow_succ]
    ring
  simp only [roundMant, hnle, if_false]
  rw [h2, h1]
  refine Prod.ext ?_ rfl
  simp only []
  by_cases hc : (q / 2 ^ (bitLen q - prec - 1)) % 2 = 1 ∧
      (sb = true ∨ q % 2 ^ (bitLen q - prec - 1) ≠ 0 ∨
        (q / (2 * 2 ^ (bitLen q - prec - 1))) % 2 = 1)
  · rw [if_pos hc, if_pos]
    simpa [or_assoc] using hc
  · rw [if_neg hc, if_neg]
    simpa [or_assoc] using hc

/-! ## The quotient by `10 ^ 18` and its decimal rendering -/

theorem bitLen_decimals : bitLen (10 ^ 18) = 60 := by decide

theorem SetInt_decimals :
    SetInt ((10 : Int) ^ 18) = ⟨64, false, .finite, 10 ^ 18, 0⟩ := by decide

theorem SetInt_pos (n : Nat) (hn : 0 < n) :
    SetInt (n : Int) = ⟨max (bitLen n) 64, false, .finite, n, 0⟩ := by
  have h1 : ¬ ((n : Int) < 0) := by omega
  have h2 : ¬ ((n : Int) = 0) := by omega
  simp [SetInt, h1, h2]

theorem roundHalfEven_eq (a den n : Nat) (h1 : 2 * a < 2 * (n * den) + den)
    (h2 : 2 * (n * den) < 2 * a + den) : roundHalfEven a den = n := by
  have hden : 0 < den := by omega
  unfold roundHalfEven
  simp only []
  have hdm := Nat.div_add_mod a den
  have hmod := Nat.mod_lt a hden
  by_cases hge : n * den ≤ a
  · have hq : a / den = n := by
      apply Nat.div_eq_of_lt_le
      · exact hge
      · rw [Nat.succ_mul]
        omega
    rw [hq] at hdm ⊢
    rw [Nat.mul_comm] at hdm
    rw [if_neg]
    intro h
    rcases h with h | ⟨h, _⟩ <;> omega
  · obtain ⟨n', rfl⟩ : ∃ n', n = n' + 1 := by
      cases n with
      | zero => simp at hge
      | succ n' => exact ⟨n', rfl⟩
    have e : (n' + 1) * den = n' * den + den := by ring
    rw [e] at hge h1 h2
    have hq : a / den = n' := by
      apply Nat.div_eq_of_lt_le
      · omega
      · rw [Nat.succ_mul]
        omega
    rw [hq] at hdm ⊢
    rw [Nat.mul_comm] at hdm
    rw [if_pos]
    left
    omega

theorem roundHalfEven_near (a den n : Nat) (h1 : a < n * den + den)
    (h2 : n * den < a + den) :
    roundHalfEven a den ≤ n + 1 ∧ n ≤ roundHalfEven a den + 1 := by
  have hden : 0 < den := by omega
  have hq : a / den ≤ n ∧ n ≤ a / den + 1 := by
    constructor
    · rw [← Nat.lt_succ_iff, Nat.div_lt_iff_lt_mul hden, Nat.succ_mul]
      exact h1
    · by_contra hlt
      have h3 : a / den + 2 ≤ n := by omega
      have h4 := Nat.mul_le_mul_right den h3
      have h5 : a < (a / den + 1) * den := by
        rw [← Nat.div_lt_iff_lt_mul hden]
        omega
      have e1 : (a / den + 2) * den = (a / den + 1) * den + den := by ring
      rw [e1] at h4
      omega
  unfold roundHalfEven
  simp only []
  split <;> omega

/-- The quotient computed by `Quo` for a positive reward `n`: a mantissa `m`
and a binary exponent `-k` with `m / 2 ^ k` within half a unit in the last
place of `n / 10 ^ 18`, that is `|m * 10 ^ 18 - n * 2 ^ k| ≤ 10 ^ 18 / 2`.  The
exponent `k` is at least 59, and at least 60 when `n < 16 * 10 ^ 18`. -/
theorem Quo_decimals (n : Nat) (hn : 0 < n) :
    ∃ m k : Nat,
      Quo (SetInt (n : Int)) (SetInt ((10 : Int) ^ 18))
        = some ⟨max (bitLen n) 64, false, .finite, m, -(k : Int)⟩ ∧
      59 ≤ k ∧ (n < 16 * 10 ^ 18 → 60 ≤ k) ∧
      2 * (m * 10 ^ 18) ≤ 2 * (n * 2 ^ k) + 10 ^ 18 ∧
      2 * (n * 2 ^ k) ≤ 2 * (m * 10 ^ 18) + 10 ^ 18 := by
  obtain ⟨p, hp⟩ : ∃ p, max (bitLen n) 64 = p := ⟨_, rfl⟩
  have hp64 : 64 ≤ p := by omega
  have hpn : bitLen n ≤ p := by omega
  obtain ⟨s, hs⟩ : ∃ s, p + 1 + 60 = s := ⟨_, rfl⟩
  obtain ⟨q, hq⟩ : ∃ q, n * 2 ^ s / 10 ^ 18 = q := ⟨_, rfl⟩
  obtain ⟨r, hr⟩ : ∃ r, n * 2 ^ s % 10 ^ 18 = r := ⟨_, rfl⟩
  have hD : (0 : Nat) < 10 ^ 18 := by norm_num
  have hrlt : r < 10 ^ 18 := by
    rw [← hr]
    exact Nat.mod_lt _ hD
  have hqr : q * 10 ^ 18 + r = n * 2 ^ s := by
    rw [← hq, ← hr, Nat.mul_comm]
    exact Nat.div_add_mod _ _
  have hD59 : 2 ^ 59 < 10 ^ 18 := by norm_num
  have hD60 : 10 ^ 18 < 2 ^ 60 := by norm_num
  -- the quotient has more than `p` bits
  have hqlow : 2 ^ (p + 1) ≤ q := by
    rw [← hq, Nat.le_div_iff_mul_le hD]
    calc 2 ^ (p + 1) * 10 ^ 18 ≤ 2 ^ (p + 1) * 2 ^ 60 := Nat.mul_le_mul_left _ (le_of_lt hD60)
      _ = 2 ^ s := by rw [← pow_add, ← hs]
      _ ≤ n * 2 ^ s := Nat.le_mul_of_pos_left _ hn
  have hLlow : p + 1 < bitLen q := lt_bitLen_of_le q (p + 1) hqlow
  -- and at most `2 * p + 2` bits
  have hnlt : n < 2 ^ p :=
    lt_of_lt_of_le (lt_two_pow_bitLen n) (Nat.pow_le_pow_right (by norm_num) hpn)
  have hqhigh : q < 2 ^ (2 * p + 2) := by
    by_contra hge
    have h1 : 2 ^ (2 * p + 2) * 2 ^ 59 ≤ q * 10 ^ 18 :=
      Nat.mul_le_mul (not_lt.mp hge) (le_of_lt hD59)
    have h2 : n * 2 ^ s < 2 ^ p * 2 ^ s := Nat.mul_lt_mul_of_pos_right hnlt (Nat.two_pow_pos s)
    have e1 : 2 ^ (2 * p + 2) * 2 ^ 59 = 2 ^ p * 2 ^ s := by
      rw [← pow_add, ← pow_add, ← hs]
      congr 1
      omega
    omega
  have hLhigh : bitLen q ≤ 2 * p + 2 := bitLen_le_of_lt q _ hqhigh
  have hL16 : n < 16 * 10 ^ 18 → bitLen q ≤ s + 4 := by
    intro h16
    apply bitLen_le_of_lt
    by_contra hge
    have h1 : 2 ^ (s + 4) * 10 ^ 18 ≤ q * 10 ^ 18 := Nat.mul_le_mul_right _ (not_lt.mp hge)
    have h2 : n * 2 ^ s < 16 * 10 ^ 18 * 2 ^ s :=
      Nat.mul_lt_mul_of_pos_right h16 (Nat.two_pow_pos s)
    have e1 : 2 ^ (s + 4) * 10 ^ 18 = 16 * 10 ^ 18 * 2 ^ s := by
      rw [pow_add]
      ring
    omega
  have hp16 : n < 16 * 10 ^ 18 → p = 64 := by
    intro h16
    have : bitLen n ≤ 64 := bitLen_le_of_lt n 64 (lt_trans h16 (by norm_num))
    omega
  obtain ⟨X, hX⟩ : ∃ X, bitLen q - p = X := ⟨_, rfl⟩
  obtain ⟨k, hk⟩ : ∃ k, s - X = k := ⟨_, rfl⟩
  have hXs : X + k = s := by omega
  have hround := roundMant_eq p q (0 - 0 - (s : Int)) (decide (r ≠ 0)) (by omega)
  obtain ⟨m, hm⟩ : ∃ m, (roundMant p q (0 - 0 - (s : Int)) (decide (r ≠ 0))).1 = m := ⟨_, rfl⟩
  have hm2 := congrArg Prod.fst hround
  rw [hm] at hm2
  simp only [decide_eq_true_eq] at hm2
  have hexp : (roundMant p q (0 - 0 - (s : Int)) (decide (r ≠ 0))).2 = -(k : Int) := by
    rw [hround]
    simp only [hX]
    omega
  have herr := round_nearest_even_error q (2 ^ (bitLen q - p - 1)) (10 ^ 18) r m
    (Nat.two_pow_pos _) hrlt hm2
  have h2H : 2 * 2 ^ (bitLen q - p - 1) = 2 ^ X := by
    have : X = (bitLen q - p - 1) + 1 := by omega
    rw [this, pow_succ]
    ring
  rw [h2H, hqr] at herr
  have hsX : 2 ^ s = 2 ^ X * 2 ^ k := by rw [← pow_add, hXs]
  have hXpos : 0 < 2 ^ X := Nat.two_pow_pos X
  refine ⟨m, k, ?_, by omega, ?_, ?_, ?_⟩
  · rw [SetInt_pos n hn, SetInt_decimals, hp]
    simp only [Quo, uquo, bitLen_decimals, true_and]
    have hmax : max p 64 = p := by omega
    simp only [hmax, hs, hq, hr, hm, hexp]
    rfl
  · intro h16
    have := hL16 h16
    have := hp16 h16
    omega
  · apply Nat.le_of_mul_le_mul_left _ hXpos
    have e1 : 2 ^ X * (2 * (m * 10 ^ 18)) = 2 * (m * 2 ^ X * 10 ^ 18) := by ring
    have e2 : 2 ^ X * (2 * (n * 2 ^ k) + 10 ^ 18) = 2 * (n * 2 ^ s) + 2 ^ X * 10 ^ 18 := by
      rw [hsX]
      ring
    rw [e1, e2]
    exact herr.1
  · apply Nat.le_of_mul_le_mul_left _ hXpos
    have e1 : 2 ^ X * (2 * (m * 10 ^ 18) + 10 ^ 18)
        = 2 * (m * 2 ^ X * 10 ^ 18) + 2 ^ X * 10 ^ 18 := by ring
    have e2 : 2 ^ X * (2 * (n * 2 ^ k)) = 2 * (n * 2 ^ s) := by
      rw [hsX]
      ring
    rw [e1, e2]
    exact herr.2

/-- The amount rendered for a reward `n ≥ 0`: the `'f'` format of some `N`
units of `10 ^ (-18)`, where `N` differs from `n` by at most one and equals
`n` as long as `n < 16 * 10 ^ 18`. -/
theorem rewardText_nat (n : Nat) :
    ∃ N : Nat, rewardText (n : Int) = some (String.mk (fmtF 18 N)) ∧
      N ≤ n + 1 ∧ n ≤ N + 1 ∧ (n < 16 * 10 ^ 18 → N = n) := by
  by_cases hn : n = 0
  · subst hn
    exact ⟨0, by decide, by omega, by omega, fun _ => rfl⟩
  · obtain ⟨m, k, hquo, hk59, hk60, he1, he2⟩ := Quo_decimals n (by omega)
    have hpow59 : 2 ^ 59 ≤ 2 ^ k := Nat.pow_le_pow_right (by norm_num) hk59
    have hpow60 : n < 16 * 10 ^ 18 → 2 ^ 60 ≤ 2 ^ k :=
      fun h => Nat.pow_le_pow_right (by norm_num) (hk60 h)
    have hneg : ¬ (0 ≤ -(k : Int)) := by omega
    have htoNat : (- -(k : Int)).toNat = k := by simp
    refine ⟨roundHalfEven (m * 10 ^ 18) (2 ^ k), ?_, ?_, ?_⟩
    · simp only [rewardText, hquo, Option.map_some', BigFloat.Text, scaledDecimal, hneg,
        htoNat]
      simp
    · have := roundHalfEven_near (m * 10 ^ 18) (2 ^ k) n (by
        generalize 2 ^ k = den at *
        generalize n * den = A at *
        norm_num at hpow59 ⊢
        omega) (by
        generalize 2 ^ k = den at *
        generalize n * den = A at *
        norm_num at hpow59 ⊢
        omega)
      exact this.1
    · constructor
      · have := roundHalfEven_near (m * 10 ^ 18) (2 ^ k) n (by
          generalize 2 ^ k = den at *
          generalize n * den = A at *
          norm_num at hpow59 ⊢
          omega) (by
          generalize 2 ^ k = den at *
          generalize n * den = A at *
          norm_num at hpow59 ⊢
          omega)
        exact this.2
      · intro h16
        have h60 := hpow60 h16
        apply roundHalfEven_eq
        · generalize 2 ^ k = den at *
          generalize n * den = A at *
          norm_num at h60 ⊢
          omega
        · generalize 2 ^ k = den at *
          generalize n * den = A at *
          norm_num at h60 ⊢
          omega

/-! ## Reading an amount back -/

theorem decimalValue_replicate_zero (k : Nat) (ds : List Char) :
    decimalValue (List.replicate k '0' ++ ds) = decimalValue ds := by
  have h : ∀ k, List.foldl (fun n c => n * 10 + digitVal c) 0 (List.replicate k '0') = 0 := by
    intro k
    induction k with
    | zero => rfl
    | succ k ih =>
      rw [List.replicate_succ, List.foldl_cons]
      exact ih
  simp [decimalValue, List.foldl_append, h]

theorem decimalValue_zeroPad (w : Nat) (ds : List Char) :
    decimalValue (zeroPad w ds) = decimalValue ds :=
  decimalValue_replicate_zero _ _

theorem zeroPad_all_digits (w : Nat) (ds : List Char) (h : ∀ c ∈ ds, c.isDigit = true) :
    ∀ c ∈ zeroPad w ds, c.isDigit = true := by
  intro c hc
  rcases List.mem_append.mp hc with hc | hc
  · rw [(List.mem_replicate.mp hc).2]
    rfl
  · exact h c hc

theorem takeWhile_ne_dot (l r : List Char) (h : ∀ c ∈ l, c.isDigit = true) :
    (l ++ '.' :: r).takeWhile (fun c => c ≠ '.') = l := by
  induction l with
  | nil => simp
  | cons a l ih =>
    have ha : a ≠ '.' := by
      intro h0
      have := h a (List.mem_cons_self _ _)
      rw [h0] at this
      exact absurd this (by decide)
    simpa [List.takeWhile, ha] using ih (fun c hc => h c (List.mem_cons_of_mem _ hc))

theorem dropWhile_ne_dot (l r : List Char) (h : ∀ c ∈ l, c.isDigit = true) :
    (l ++ '.' :: r).dropWhile (fun c => c ≠ '.') = '.' :: r := by
  induction l with
  | nil => simp
  | cons a l ih =>
    have ha : a ≠ '.' := by
      intro h0
      have := h a (List.mem_cons_self _ _)
      rw [h0] at this
      exact absurd this (by decide)
    simpa [List.dropWhile, ha] using ih (fun c hc => h c (List.mem_cons_of_mem _ hc))

/-- Reading back a rendered amount gives the number of units it was rendered
from. -/
theorem parseAmount_fmtF (N : Nat) : parseAmount (String.mk (fmtF 18 N)) = some N := by
  have hfrac : N % 10 ^ 18 < 10 ^ (17 + 1) := Nat.mod_lt _ (by norm_num)
  have hlen : (zeroPad 18 (utoa (N % 10 ^ 18))).length = 18 :=
    zeroPad_length 18 _ (utoa_length_le 17 _ hfrac)
  have hd1 := utoa_all_digits (N / 10 ^ 18)
  have hd2 := zeroPad_all_digits 18 _ (utoa_all_digits (N % 10 ^ 18))
  have hne : utoa (N / 10 ^ 18) ≠ [] := by
    intro h
    have := utoa_length_pos (N / 10 ^ 18)
    rw [h] at this
    simp at this
  have hfmt : fmtF 18 N = utoa (N / 10 ^ 18) ++ '.' :: zeroPad 18 (utoa (N % 10 ^ 18)) := by
    simp [fmtF]
  unfold parseAmount
  simp only [String.toList, hfmt, takeWhile_ne_dot _ _ hd1, dropWhile_ne_dot _ _ hd1,
    List.drop_succ_cons, List.drop_zero]
  rw [if_pos]
  · rw [decimalValue_utoa, decimalValue_zeroPad, decimalValue_utoa]
    congr 1
    exact Nat.div_add_mod' N (10 ^ 18)
  · refine ⟨hne, ?_, hlen, ?_⟩
    · rw [List.all_eq_true]
      exact hd1
    · rw [List.all_eq_true]
      exact hd2

/-- `SetString` reads the decimal numeral of `n` as `n`. -/
theorem SetString_utoa (n : Nat) : SetString (String.mk (utoa n)) = some (n : Int) := by
  have hd := utoa_all_digits n
  have hpos := utoa_length_pos n
  unfold SetString
  simp only [String.toList]
  match hu : utoa n, hpos with
  | c :: cs, _ =>
    have hc : c.isDigit = true := hd c (by rw [hu]; exact List.mem_cons_self _ _)
    have hplus : c ≠ '+' := by
      intro h0
      rw [h0] at hc
      exact absurd hc (by decide)
    have hminus : c ≠ '-' := by
      intro h0
      rw [h0] at hc
      exact absurd hc (by decide)
    have hall : (c :: cs).all Char.isDigit = true := by
      rw [List.all_eq_true]
      intro x hx
      exact hd x (by rw [hu]; exact hx)
    have hval : decimalValue (c :: cs) = n := by
      rw [← hu]
      exact decimalValue_utoa n
    simp only [hplus, hminus, or_self, if_false, hall, hval]
    simp

/-! ## The loop -/

theorem rewardText_some (n : Int) : ∃ s, rewardText n = some s := by
  by_cases h : n = 0
  · subst h
    exact ⟨_, rfl⟩
  · have h10 : ((10 : Int) ^ 18 = 0) = False := by norm_num
    simp [rewardText, Quo, SetInt, h, h10]

theorem eventLoop_skip (env : Env) (year integration asset label : String) (k : Nat)
    (e : Event) (es : List Event) (t : Int) (ht : ParseInt e.BlockTime = .ok t)
    (hy : inYear year e = false) :
    eventLoop env year integration asset label k (e :: es)
      = eventLoop env year integration asset label k es := by
  have hne : year ≠ (Unix t).UTC.Format "2006" := by
    intro h
    simp [inYear, ht, h] at hy
  simp [eventLoop, ht, hne]

theorem eventLoop_row (env : Env) (year integration asset label : String) (k : Nat)
    (e : Event) (es : List Event) (t n : Int) (ht : ParseInt e.BlockTime = .ok t)
    (hy : inYear year e = true) (hn : SetString e.Rewards = some n)
    (hw : env.writeOk k = true) :
    eventLoop env year integration asset label k (e :: es)
      = ⟨eventRecord integration asset label e ::
          (eventLoop env year integration asset label (k + 1) es).records,
         (eventLoop env year integration asset label (k + 1) es).logs,
         (eventLoop env year integration asset label (k + 1) es).result⟩ := by
  have heq : year = (Unix t).UTC.Format "2006" := by
    simp [inYear, ht] at hy
    exact hy.symm
  obtain ⟨s, hs⟩ := rewardText_some n
  simp only [eventLoop, ht, hn, hs, hw, eventRecord, blockTimeOf, Option.getD]
  simp [← heq]

theorem eventLoop_error (env : Env) (year integration asset label : String) (k : Nat)
    (e : Event) (es : List Event) (c : NumError) (ht : ParseInt e.BlockTime = .error c) :
    eventLoop env year integration asset label k (e :: es)
      = ⟨[], [], .returned (some (.convertingToInt e.BlockTime c))⟩ := by
  simp [eventLoop, ht]

theorem eventLoop_panic (env : Env) (year integration asset label : String) (k : Nat)
    (e : Event) (es : List Event) (t : Int) (ht : ParseInt e.BlockTime = .ok t)
    (hy : inYear year e = true) (hn : SetString e.Rewards = none) :
    eventLoop env year integration asset label k (e :: es)
      = ⟨[], ["could not set rewards"], .panicked⟩ := by
  have heq : year = (Unix t).UTC.Format "2006" := by
    simp [inYear, ht] at hy
    exact hy.symm
  simp only [eventLoop, ht, hn]
  simp [← heq]

/-- On a prefix whose timestamps parse and whose in-year rewards parse, the loop
writes the records of the in-year events in order and carries on with the
rest of the list. -/
theorem eventLoop_append (env : Env) (hw : ∀ k, env.writeOk k = true)
    (year integration asset label : String) (pre rest : List Event) :
    ∀ k, timesParse pre → rewardsParse year pre →
      ∃ k2, eventLoop env year integration asset label k (pre ++ rest)
        = ⟨(pre.filter (inYear year)).map (eventRecord integration asset label) ++
            (eventLoop env year integration asset label k2 rest).records,
           (eventLoop env year integration asset label k2 rest).logs,
           (eventLoop env year integration asset label k2 rest).result⟩ := by
  induction pre with
  | nil => intro k _ _; exact ⟨k, by simp⟩
  | cons e es ih =>
    intro k htp hrp
    obtain ⟨t, ht⟩ := htp e (List.mem_cons_self _ _)
    have htp2 : timesParse es := fun x hx => htp x (List.mem_cons_of_mem _ hx)
    have hrp2 : rewardsParse year es := fun x hx => hrp x (List.mem_cons_of_mem _ hx)
    cases hy : inYear year e with
    | false =>
      obtain ⟨k2, h2⟩ := ih k htp2 hrp2
      refine ⟨k2, ?_⟩
      rw [List.cons_append, eventLoop_skip env year integration asset label k e _ t ht hy, h2]
      simp [List.filter, hy]
    | true =>
      obtain ⟨n, hn⟩ := hrp e (List.mem_cons_self _ _) hy
      obtain ⟨k2, h2⟩ := ih (k + 1) htp2 hrp2
      refine ⟨k2, ?_⟩
      rw [List.cons_append,
        eventLoop_row env year integration asset label k e _ t n ht hy hn (hw k), h2]
      simp [List.filter, hy]

theorem eventLoop_good (env : Env) (hw : ∀ k, env.writeOk k = true)
    (year integration asset label : String) (events : List Event) (k : Nat)
    (htp : timesParse events) (hrp : rewardsParse year events) :
    eventLoop env year integration asset label k events
      = ⟨(events.filter (inYear year)).map (eventRecord integration asset label), [],
          .returned none⟩ := by
  obtain ⟨k2, h⟩ := eventLoop_append env hw year integration asset label events [] k htp hrp
  simpa [eventLoop] using h

/-- With working I/O and parseable in-year rewards the loop either sees only
parseable timestamps and returns `nil`, or returns the conversion error of an
event whose timestamp does not parse. -/
theorem eventLoop_result (env : Env) (hw : ∀ k, env.writeOk k = true)
    (year integration asset label : String) :
    ∀ (events : List Event) (k : Nat), rewardsParse year events →
      (timesParse events ∧
        (eventLoop env year integration asset label k events).result = .returned none) ∨
      (∃ e ∈ events, ∃ c, ParseInt e.BlockTime = .error c ∧
        (eventLoop env year integration asset label k events).result
          = .returned (some (.convertingToInt e.BlockTime c))) := by
  intro events
  induction events with
  | nil =>
    intro k _
    exact Or.inl ⟨fun e he => absurd he (List.not_mem_nil e), rfl⟩
  | cons e es ih =>
    intro k hrp
    have hrp2 : rewardsParse year es := fun x hx => hrp x (List.mem_cons_of_mem _ hx)
    cases ht : ParseInt e.BlockTime with
    | error c =>
      refine Or.inr ⟨e, List.mem_cons_self _ _, c, ht, ?_⟩
      rw [eventLoop_error env year integration asset label k e es c ht]
    | ok t =>
      have key : ∀ k2, (eventLoop env year integration asset label k (e :: es)).result
          = (eventLoop env year integration asset label k2 es).result →
          (timesParse (e :: es) ∧
            (eventLoop env year integration asset label k (e :: es)).result = .returned none) ∨
          (∃ x ∈ e :: es, ∃ c, ParseInt x.BlockTime = .error c ∧
            (eventLoop env year integration asset label k (e :: es)).result
              = .returned (some (.convertingToInt x.BlockTime c))) := by
        intro k2 h
        rcases ih k2 hrp2 with ⟨htp, hres⟩ | ⟨x, hx, c, hc, hres⟩
        · refine Or.inl ⟨?_, by rw [h, hres]⟩
          intro x hx
          rcases List.mem_cons.mp hx with rfl | hx
          · exact ⟨t, ht⟩
          · exact htp x hx
        · exact Or.inr ⟨x, List.mem_cons_of_mem _ hx, c, hc, by rw [h, hres]⟩
      cases hy : inYear year e with
      | false =>
        exact key k (by rw [eventLoop_skip env year integration asset label k e es t ht hy])
      | true =>
        obtain ⟨n, hn⟩ := hrp e (List.mem_cons_self _ _) hy
        exact key (k + 1)
          (by rw [eventLoop_row env year integration asset label k e es t n ht hy hn (hw k)])

theorem eventLoop_writeFail (env : Env) (year integration asset label : String) (k : Nat)
    (e : Event) (es : List Event) (t n : Int) (ht : ParseInt e.BlockTime = .ok t)
    (hy : inYear year e = true) (hn : SetString e.Rewards = some n)
    (hw : env.writeOk k = false) :
    eventLoop env year integration asset label k (e :: es)
      = ⟨[], [], .returned (some .writingRow)⟩ := by
  have heq : year = (Unix t).UTC.Format "2006" := by
    simp [inYear, ht] at hy
    exact hy.symm
  obtain ⟨s, hs⟩ := rewardText_some n
  simp only [eventLoop, ht, hn, hs, hw]
  simp [← heq]

/-- Every record the loop writes is the record of an event of the list that
passes the year filter. -/
theorem eventLoop_records_shape (env : Env) (year integration asset label : String) :
    ∀ (events : List Event) (k : Nat),
      ∀ r ∈ (eventLoop env year integration asset label k events).records,
        ∃ e ∈ events, inYear year e = true ∧ r = eventRecord integration asset label e := by
  intro events
  induction events with
  | nil => intro k r hr; simp [eventLoop] at hr
  | cons e es ih =>
    intro k r hr
    have lift : (∃ x ∈ es, inYear year x = true ∧ r = eventRecord integration asset label x) →
        ∃ x ∈ e :: es, inYear year x = true ∧ r = eventRecord integration asset label x := by
      rintro ⟨x, hx, h⟩
      exact ⟨x, List.mem_cons_of_mem _ hx, h⟩
    cases ht : ParseInt e.BlockTime with
    | error c =>
      rw [eventLoop_error env year integration asset label k e es c ht] at hr
      simp at hr
    | ok t =>
      cases hy : inYear year e with
      | false =>
        rw [eventLoop_skip env year integration asset label k e es t ht hy] at hr
        exact lift (ih k r hr)
      | true =>
        cases hn : SetString e.Rewards with
        | none =>
          rw [eventLoop_panic env year integration asset label k e es t ht hy hn] at hr
          simp at hr
        | some n =>
          cases hw : env.writeOk k with
          | false =>
            rw [eventLoop_writeFail env year integration asset label k e es t n ht hy hn hw] at hr
            simp at hr
          | true =>
            rw [eventLoop_row env year integration asset label k e es t n ht hy hn hw] at hr
            rcases List.mem_cons.mp hr with rfl | hr
            · exact ⟨e, List.mem_cons_self _ _, hy, rfl⟩
            · exact lift (ih (k + 1) r hr)

/-- When no event passes the year filter the loop writes nothing. -/
theorem eventLoop_none_in_year (env : Env) (year integration asset label : String) :
    ∀ (events : List Event) (k : Nat), (∀ e ∈ events, inYear year e = false) →
      (eventLoop env year integration asset label k events).records = [] := by
  intro events
  induction events with
  | nil => intro k _; rfl
  | cons e es ih =>
    intro k h
    have h2 : ∀ x ∈ es, inYear year x = false := fun x hx => h x (List.mem_cons_of_mem _ hx)
    cases ht : ParseInt e.BlockTime with
    | error c => rw [eventLoop_error env year integration asset label k e es c ht]
    | ok t =>
      rw [eventLoop_skip env year integration asset label k e es t ht
        (h e (List.mem_cons_self _ _))]
      exact ih k h2

/-! ## Results on `writeCSV`: errors, order and layout of the records -/

theorem okEnv_allOk (year out : String) : okEnv.allOk year out :=
  ⟨rfl, fun _ => rfl⟩

set_option maxRecDepth 100000 in
/-- C3 (the code departs from the claim): an in-year event whose rewards string
is `"abc"` makes `SetString` return `nil`; the warning is logged, `SetInt`
dereferences the `nil` and the run panics, so `writeCSV` does not return and the
qualifying event that follows gets no row. -/
theorem writeCSV_malformed_rewards_panics :
    writeCSV okEnv
      [{ BlockTime := "1700000000", Rewards := "abc" },
       { BlockTime := "1700000001", Rewards := "5" }]
      "2023" "" "Lido stETH" "stETH" "Staking"
      = ⟨[headers], ["writing data to 2023-report.csv", "could not set rewards"],
          .panicked⟩ := by
  decide

/-- C4: with working I/O and parseable in-year rewards, `writeCSV` returns a
non-nil error exactly when some event of the list (in the requested year or
not) has a `blockTime` that `ParseInt` rejects; it never panics, and the error
is the conversion error of such an event.  `ParseInt` rejects the empty string
and non-numeric strings as syntax errors and values outside the `int64` range
as range errors. -/
theorem writeCSV_error_iff_bad_blockTime (env : Env) (events : List Event)
    (year out integration asset label : String)
    (hio : env.allOk year out) (hrp : rewardsParse year events) :
    ((∃ err, (writeCSV env events year out integration asset label).result
        = .returned (some err))
      ↔ ∃ e ∈ events, ∃ c, ParseInt e.BlockTime = .error c) ∧
    (∀ err, (writeCSV env events year out integration asset label).result
        = .returned (some err) →
      ∃ e ∈ events, ∃ c, ParseInt e.BlockTime = .error c ∧
        err = .convertingToInt e.BlockTime c) ∧
    (writeCSV env events year out integration asset label).result ≠ .panicked ∧
    (ParseInt "" = .error .syntax_ ∧ ParseInt "abc" = .error .syntax_ ∧
      ParseInt "9223372036854775808" = .error .range ∧
      ParseInt "-9223372036854775809" = .error .range) := by
  obtain ⟨hc, hw⟩ := hio
  have hres : (writeCSV env events year out integration asset label).result
      = (eventLoop env year integration asset label 1 events).result := by
    simp [writeCSV, hc, hw 0]
  rw [hres]
  rcases eventLoop_result env hw year integration asset label events 1 hrp with
    ⟨htp, h⟩ | ⟨e, he, c, hc2, h⟩
  · rw [h]
    refine ⟨⟨?_, ?_⟩, ?_, ?_, by decide⟩
    · rintro ⟨err, herr⟩
      simp at herr
    · rintro ⟨e, he, c, hc2⟩
      obtain ⟨t, ht⟩ := htp e he
      rw [ht] at hc2
      cases hc2
    · intro err herr
      simp at herr
    · simp
  · rw [h]
    refine ⟨⟨fun _ => ⟨e, he, c, hc2⟩, fun _ => ⟨_, rfl⟩⟩, ?_, ?_, by decide⟩
    · intro err herr
      refine ⟨e, he, c, hc2, ?_⟩
      simp at herr
      exact herr.symm
    · simp

set_option maxRecDepth 100000 in
/-- An instance: a list whose second `blockTime` is `12a`. -/
theorem writeCSV_error_iff_bad_blockTime_witness :
    ((∃ err, (writeCSV okEnv
          [{ BlockTime := "1500000000", Rewards := "7" }, { BlockTime := "12a" }]
          "2023" "" "Lido stETH" "stETH" "Staking").result = .returned (some err))
      ↔ ∃ e ∈ [({ BlockTime := "1500000000", Rewards := "7" } : Event), { BlockTime := "12a" }],
          ∃ c, ParseInt e.BlockTime = .error c) :=
  (writeCSV_error_iff_bad_blockTime okEnv
    [{ BlockTime := "1500000000", Rewards := "7" }, { BlockTime := "12a" }]
    "2023" "" "Lido stETH" "stETH" "Staking" (okEnv_allOk _ _)
    (by
      intro e he h
      simp at he
      rcases he with rfl | rfl
      · exact absurd h (by decide)
      · exact absurd h (by decide))).1

set_option maxRecDepth 100000 in
/-- C5 (counterexample): the second event has a `blockTime` that does not
parse, yet the row of the qualifying event before it has been written. -/
theorem writeCSV_abort_keeps_earlier_rows :
    ParseInt "12a" = .error .syntax_ ∧
    writeCSV okEnv
      [{ BlockTime := "1700000000", Rewards := "1234567890123456789" },
       { BlockTime := "12a", Rewards := "5" }]
      "2023" "" "Lido stETH" "stETH" "Staking"
      = ⟨[headers,
          ["14-11-2023 22:13:20", "Lido stETH", "Staking", "", "", "stETH",
           "1.234567890123456789", "", "", "Lido stETH staking reward", ""]],
         ["writing data to 2023-report.csv"],
         .returned (some (.convertingToInt "12a" .syntax_))⟩ := by
  decide

/-- C5 (amended): when the first event whose `blockTime` does not parse comes
after a prefix of well-formed events, `writeCSV` returns the conversion error
of that event; the records written are the header and, in order, the rows of
the in-year events of the prefix; no row is written for the malformed event or
for any event after it. -/
theorem writeCSV_abort_at_first_bad_blockTime (env : Env) (pre post : List Event)
    (bad : Event) (c : NumError) (year out integration asset label : String)
    (hio : env.allOk year out) (htp : timesParse pre) (hrp : rewardsParse year pre)
    (hbad : ParseInt bad.BlockTime = .error c) :
    writeCSV env (pre ++ bad :: post) year out integration asset label
      = ⟨headers :: (pre.filter (inYear year)).map (eventRecord integration asset label),
         ["writing data to " ++ outPath year out],
         .returned (some (.convertingToInt bad.BlockTime c))⟩ := by
  obtain ⟨hc, hw⟩ := hio
  obtain ⟨k2, h⟩ :=
    eventLoop_append env hw year integration asset label pre (bad :: post) 1 htp hrp
  rw [eventLoop_error env year integration asset label k2 bad post c hbad] at h
  simp [writeCSV, hc, hw 0, h]

set_option maxRecDepth 100000 in
/-- An instance: one in-year event, then a `blockTime` that does not parse, then another event. -/
theorem writeCSV_abort_at_first_bad_blockTime_witness :
    writeCSV okEnv
      ([{ BlockTime := "1700000000", Rewards := "1234567890123456789" }] ++
        { BlockTime := "12a" } :: [{ BlockTime := "1700000001", Rewards := "5" }])
      "2023" "" "Lido stETH" "stETH" "Staking"
      = ⟨headers ::
          (([{ BlockTime := "1700000000", Rewards := "1234567890123456789" }] : List Event).filter
            (inYear "2023")).map (eventRecord "Lido stETH" "stETH" "Staking"),
         ["writing data to " ++ outPath "2023" ""],
         .returned (some (.convertingToInt "12a" .syntax_))⟩ :=
  writeCSV_abort_at_first_bad_blockTime okEnv
    [{ BlockTime := "1700000000", Rewards := "1234567890123456789" }]
    [{ BlockTime := "1700000001", Rewards := "5" }] { BlockTime := "12a" } .syntax_
    "2023" "" "Lido stETH" "stETH" "Staking" (okEnv_allOk _ _)
    (by
      intro e he
      simp at he
      subst he
      exact ⟨1700000000, by decide⟩)
    (by
      intro e he _
      simp at he
      subst he
      exact ⟨1234567890123456789, by decide⟩)
    (by decide)

/-- C6: for a well-formed event list (every `blockTime` parses, every in-year
rewards string parses, I/O works) the data records are exactly the images, in
the same order, of the sub-list of events that pass the year filter, so there
are at most as many data records as events; the run returns `nil`. -/
theorem writeCSV_rows_are_filtered_events_in_order (env : Env) (events : List Event)
    (year out integration asset label : String)
    (hio : env.allOk year out) (htp : timesParse events) (hrp : rewardsParse year events) :
    (writeCSV env events year out integration asset label).records
      = headers :: (events.filter (inYear year)).map (eventRecord integration asset label) ∧
    (events.filter (inYear year)).Sublist events ∧
    (writeCSV env events year out integration asset label).records.tail.length
      ≤ events.length ∧
    (writeCSV env events year out integration asset label).result = .returned none := by
  obtain ⟨hc, hw⟩ := hio
  have h := eventLoop_good env hw year integration asset label events 1 htp hrp
  have hrec : (writeCSV env events year out integration asset label).records
      = headers :: (events.filter (inYear year)).map (eventRecord integration asset label) := by
    simp [writeCSV, hc, hw 0, h]
  refine ⟨hrec, List.filter_sublist events, ?_, ?_⟩
  · rw [hrec]
    simpa using List.length_filter_le (inYear year) events
  · simp [writeCSV, hc, hw 0, h]

set_option maxRecDepth 100000 in
/-- An instance: three events of which the first and the third are in 2023. -/
theorem writeCSV_rows_are_filtered_events_in_order_witness :
    (writeCSV okEnv
      [{ BlockTime := "1700000000", Rewards := "3" }, { BlockTime := "1600000000", Rewards := "" },
       { BlockTime := "1690000000", Rewards := "2" }]
      "2023" "" "Lido stETH" "stETH" "Staking").records
      = [headers,
         ["14-11-2023 22:13:20", "Lido stETH", "Staking", "", "", "stETH",
          "0.000000000000000003", "", "", "Lido stETH staking reward", ""],
         ["22-07-2023 04:26:40", "Lido stETH", "Staking", "", "", "stETH",
          "0.000000000000000002", "", "", "Lido stETH staking reward", ""]] :=
  (writeCSV_rows_are_filtered_events_in_order okEnv
    [{ BlockTime := "1700000000", Rewards := "3" }, { BlockTime := "1600000000", Rewards := "" },
     { BlockTime := "1690000000", Rewards := "2" }]
    "2023" "" "Lido stETH" "stETH" "Staking" (okEnv_allOk _ _)
    (by
      intro e he
      simp at he
      rcases he with rfl | rfl | rfl
      · exact ⟨1700000000, by decide⟩
      · exact ⟨1600000000, by decide⟩
      · exact ⟨1690000000, by decide⟩)
    (by
      intro e he h
      simp at he
      rcases he with rfl | rfl | rfl
      · exact ⟨3, by decide⟩
      · exact absurd h (by decide)
      · exact ⟨2, by decide⟩)).1.trans (by decide)

/-- C7: the header has 11 columns, and every data record has 11 fields laid
out as date, integration, label, two empty strings, asset, amount, two empty
strings, the fixed comment and an empty string; hence the fields at positions
1, 2, 5 and 9 agree across the data records of a run. -/
theorem writeCSV_row_layout (env : Env) (events : List Event)
    (year out integration asset label : String) :
    headers.length = 11 ∧
    (∀ r ∈ (writeCSV env events year out integration asset label).records.tail,
      r.length = 11 ∧
      ∃ d a, r = [d, integration, label, "", "", asset, a, "", "",
        "Lido stETH staking reward", ""]) ∧
    (∀ r ∈ (writeCSV env events year out integration asset label).records.tail,
      ∀ r2 ∈ (writeCSV env events year out integration asset label).records.tail,
        ∀ i ∈ [1, 2, 5, 9], r.get? i = r2.get? i) := by
  have hshape : ∀ r ∈ (writeCSV env events year out integration asset label).records.tail,
      ∃ d a, r = row d integration label asset a := by
    intro r hr
    unfold writeCSV at hr
    simp only [] at hr
    split at hr
    · simp at hr
    · split at hr
      · simp at hr
      · obtain ⟨e, _, _, h⟩ :=
          eventLoop_records_shape env year integration asset label events 1 r hr
        exact ⟨_, _, h⟩
  refine ⟨rfl, ?_, ?_⟩
  · intro r hr
    obtain ⟨d, a, rfl⟩ := hshape r hr
    exact ⟨rfl, d, a, rfl⟩
  · intro r hr r2 hr2 i hi
    obtain ⟨d, a, rfl⟩ := hshape r hr
    obtain ⟨d2, a2, rfl⟩ := hshape r2 hr2
    simp at hi
    rcases hi with rfl | rfl | rfl | rfl <;> rfl

set_option maxRecDepth 100000 in
/-- C9 (counterexample): the only event has no `blockTime`, so no event is in
the requested year; the records are the header alone, but `writeCSV` returns
the conversion error, not `nil`. -/
theorem writeCSV_no_row_yet_error :
    inYear "2023" { Rewards := "5" } = false ∧
    writeCSV okEnv [{ Rewards := "5" }] "2023" "" "Lido stETH" "stETH" "Staking"
      = ⟨[headers], ["writing data to 2023-report.csv"],
          .returned (some (.convertingToInt "" .syntax_))⟩ := by
  decide

/-- C9 (amended): when the output file can be created, the first record
written, if any, is the fixed 11-column header, and no later record equals it.
Once the writer has accepted the header, it is the first record whatever the
event list and the parameters; for the empty list, and for a list in which
every `blockTime` parses and no event is in the requested year, the records
are the header alone and `writeCSV` returns `nil`; when no event is in the
requested year but some `blockTime` is malformed, the records are still the
header alone. -/
theorem writeCSV_header_first_and_alone (env : Env) (events : List Event)
    (year out integration asset label : String)
    (hc : env.createOk (outPath year out) = true) :
    headers = ["Date (UTC)", "Integration Name", "Label", "Outgoing Asset",
      "Outgoing Amount", "Incoming Asset", "Incoming Amount", "Fee Asset (optional)",
      "Fee Amount (optional)", "Comment (optional)", "Trx. ID (optional)"] ∧
    (∀ r, (writeCSV env events year out integration asset label).records.head? = some r →
      r = headers) ∧
    headers ∉ (writeCSV env events year out integration asset label).records.tail ∧
    (env.writeOk 0 = true →
      (writeCSV env events year out integration asset label).records.head? = some headers ∧
      ((writeCSV env [] year out integration asset label).records = [headers] ∧
        (writeCSV env [] year out integration asset label).result = .returned none) ∧
      ((∀ e ∈ events, ∃ t, ParseInt e.BlockTime = .ok t ∧ (Unix t).UTC.Format "2006" ≠ year) →
        (writeCSV env events year out integration asset label).records = [headers] ∧
        (writeCSV env events year out integration asset label).result = .returned none) ∧
      ((∀ e ∈ events, inYear year e = false) →
        (writeCSV env events year out integration asset label).records = [headers])) := by
  have hnil : ∀ (l : List Event) (k : Nat),
      (∀ e ∈ l, ∃ t, ParseInt e.BlockTime = .ok t ∧ (Unix t).UTC.Format "2006" ≠ year) →
      (eventLoop env year integration asset label k l).result = .returned none := by
    intro l
    induction l with
    | nil => intro k _; rfl
    | cons e es ih =>
      intro k h
      obtain ⟨t, ht, hne⟩ := h e (List.mem_cons_self _ _)
      rw [eventLoop_skip env year integration asset label k e es t ht (by simp [inYear, ht, hne])]
      exact ih k (fun x hx => h x (List.mem_cons_of_mem _ hx))
  cases hw0 : env.writeOk 0 with
  | false =>
    have hrec : (writeCSV env events year out integration asset label).records = [] := by
      simp [writeCSV, hc, hw0]
    rw [hrec]
    refine ⟨rfl, ?_, ?_, ?_⟩
    · intro r hr
      simp at hr
    · simp
    · intro h
      simp at h
  | true =>
    have hrec : (writeCSV env events year out integration asset label).records
        = headers :: (eventLoop env year integration asset label 1 events).records := by
      simp [writeCSV, hc, hw0]
    have hres : (writeCSV env events year out integration asset label).result
        = (eventLoop env year integration asset label 1 events).result := by
      simp [writeCSV, hc, hw0]
    refine ⟨rfl, ?_, ?_, fun _ => ⟨by rw [hrec]; rfl, ⟨?_, ?_⟩, ?_, ?_⟩⟩
    · intro r hr
      rw [hrec] at hr
      simp at hr
      exact hr.symm
    · rw [hrec]
      intro hmem
      obtain ⟨e, _, _, h⟩ :=
        eventLoop_records_shape env year integration asset label events 1 _ hmem
      simp [headers, eventRecord, row] at h
    · simp [writeCSV, hc, hw0, eventLoop]
    · simp [writeCSV, hc, hw0, eventLoop]
    · intro h
      have hny : ∀ e ∈ events, inYear year e = false := by
        intro e he
        obtain ⟨t, ht, hne⟩ := h e he
        simp [inYear, ht, hne]
      rw [hrec, hres, eventLoop_none_in_year env year integration asset label events 1 hny,
        hnil events 1 h]
      exact ⟨rfl, rfl⟩
    · intro h
      rw [hrec, eventLoop_none_in_year env year integration asset label events 1 h]

set_option maxRecDepth 100000 in
/-- An instance: a single event of the year 2020 and the requested year 2023. -/
theorem writeCSV_header_first_and_alone_witness :
    (writeCSV okEnv [{ BlockTime := "1600000000", Rewards := "5" }]
      "2023" "" "Lido stETH" "stETH" "Staking").records = [headers] ∧
    (writeCSV okEnv [{ BlockTime := "1600000000", Rewards := "5" }]
      "2023" "" "Lido stETH" "stETH" "Staking").result = .returned none :=
  ((writeCSV_header_first_and_alone okEnv [{ BlockTime := "1600000000", Rewards := "5" }]
    "2023" "" "Lido stETH" "stETH" "Staking" rfl).2.2.2 rfl).2.2.1
    (by
      intro e he
      simp at he
      subst he
      exact ⟨1600000000, by decide, by decide⟩)

/-! ## Results on `writeCSV`: the year filter and the date field -/

theorem inYear_iff_inUTCYear (year : String) (hlen : year.length = 4)
    (hdig : ∀ c ∈ year.toList, c.isDigit = true) (e : Event) (t : Int)
    (ht : ParseInt e.BlockTime = .ok t) :
    inYear year e = true ↔ inUTCYear t (decimalValue year.toList) := by
  obtain ⟨h1, h2⟩ := ParseInt_range e.BlockTime t ht
  rw [← Format_2006_eq_iff t h1 h2 year hlen hdig]
  simp [inYear, ht]

theorem unixOfCivil_jan1 (Y : Int) : unixOfCivil Y 1 1 0 0 0 = daysBeforeYear Y * 86400 := by
  simp [unixOfCivil, daysBeforeMonth]

theorem unixOfCivil_dec31 (Y : Int) :
    unixOfCivil Y 12 31 23 59 59 = daysBeforeYear (Y + 1) * 86400 - 1 := by
  rw [daysBeforeYear_succ]
  cases h : isLeap Y <;>
    simp [unixOfCivil, daysBeforeMonth, daysInMonth, List.range, List.range.loop, h] <;> ring

/-- C2: for an event list whose timestamps all parse and whose in-year rewards
parse, and a requested year written with four decimal digits, an event passes
the year filter exactly when its instant lies in that UTC calendar year, and the
data records are the records of exactly those events; an event at
`Y-01-01T00:00:00Z` or at `Y-12-31T23:59:59Z` is included for the requested
year `Y` and for no other four-digit year. -/
theorem writeCSV_row_iff_utc_year (env : Env) (events : List Event)
    (year out integration asset label : String)
    (hlen : year.length = 4) (hdig : ∀ c ∈ year.toList, c.isDigit = true)
    (hio : env.allOk year out) (htp : timesParse events) (hrp : rewardsParse year events) :
    (∀ e ∈ events,
      inYear year e = true ↔ inUTCYear (blockTimeOf e) (decimalValue year.toList)) ∧
    (writeCSV env events year out integration asset label).records
      = headers :: (events.filter
          (fun e => decide (inUTCYear (blockTimeOf e) (decimalValue year.toList)))).map
            (eventRecord integration asset label) ∧
    (∀ (e : Event) (Y : Int),
      (ParseInt e.BlockTime = .ok (unixOfCivil Y 1 1 0 0 0) ∨
        ParseInt e.BlockTime = .ok (unixOfCivil Y 12 31 23 59 59)) →
      (inYear year e = true ↔ (decimalValue year.toList : Int) = Y)) := by
  have hiff : ∀ e ∈ events,
      inYear year e = true ↔ inUTCYear (blockTimeOf e) (decimalValue year.toList) := by
    intro e he
    obtain ⟨t, ht⟩ := htp e he
    rw [inYear_iff_inUTCYear year hlen hdig e t ht]
    simp [blockTimeOf, ht]
  refine ⟨hiff, ?_, ?_⟩
  · obtain ⟨hc, hw⟩ := hio
    have h := eventLoop_good env hw year integration asset label events 1 htp hrp
    have hfilter : events.filter (inYear year) = events.filter
        (fun e => decide (inUTCYear (blockTimeOf e) (decimalValue year.toList))) := by
      apply List.filter_congr
      intro e he
      have := hiff e he
      by_cases hin : inUTCYear (blockTimeOf e) (decimalValue year.toList)
      · rw [this.mpr hin]
        exact (decide_eq_true hin).symm
      · have hf : inYear year e = false := by
          cases hb : inYear year e with
          | false => rfl
          | true => exact absurd (this.mp hb) hin
        rw [hf]
        exact (decide_eq_false hin).symm
    rw [← hfilter]
    simp [writeCSV, hc, hw 0, h]
  · intro e Y hY
    have hmono := daysBeforeYear_succ Y
    have hpos : daysBeforeYear Y < daysBeforeYear (Y + 1) := by
      rw [hmono]
      split <;> omega
    rcases hY with ht | ht
    · rw [inYear_iff_inUTCYear year hlen hdig e _ ht]
      have hin : inUTCYear (unixOfCivil Y 1 1 0 0 0) Y := by
        rw [unixOfCivil_jan1]
        exact ⟨le_refl _, by omega⟩
      exact ⟨fun h => inUTCYear_unique _ _ _ h hin, fun h => h ▸ hin⟩
    · rw [inYear_iff_inUTCYear year hlen hdig e _ ht]
      have hin : inUTCYear (unixOfCivil Y 12 31 23 59 59) Y := by
        rw [unixOfCivil_dec31]
        exact ⟨by omega, by omega⟩
      exact ⟨fun h => inUTCYear_unique _ _ _ h hin, fun h => h ▸ hin⟩

set_option maxRecDepth 100000 in
/-- An instance: events at the last second of 2022, the first and the last second of 2023 and the first second of 2024, for the requested year 2023. -/
theorem writeCSV_row_iff_utc_year_witness :
    (writeCSV okEnv
      [{ BlockTime := "1672531199", Rewards := "1" }, { BlockTime := "1672531200", Rewards := "2" },
       { BlockTime := "1704067199", Rewards := "3" }, { BlockTime := "1704067200", Rewards := "4" }]
      "2023" "" "Lido stETH" "stETH" "Staking").records
      = [headers,
         ["01-01-2023 00:00:00", "Lido stETH", "Staking", "", "", "stETH",
          "0.000000000000000002", "", "", "Lido stETH staking reward", ""],
         ["31-12-2023 23:59:59", "Lido stETH", "Staking", "", "", "stETH",
          "0.000000000000000003", "", "", "Lido stETH staking reward", ""]] :=
  (writeCSV_row_iff_utc_year okEnv
    [{ BlockTime := "1672531199", Rewards := "1" }, { BlockTime := "1672531200", Rewards := "2" },
     { BlockTime := "1704067199", Rewards := "3" }, { BlockTime := "1704067200", Rewards := "4" }]
    "2023" "" "Lido stETH" "stETH" "Staking" (by decide) (by decide) (okEnv_allOk _ _)
    (by
      intro e he
      simp at he
      rcases he with rfl | rfl | rfl | rfl
      · exact ⟨1672531199, by decide⟩
      · exact ⟨1672531200, by decide⟩
      · exact ⟨1704067199, by decide⟩
      · exact ⟨1704067200, by decide⟩)
    (by
      intro e he h
      simp at he
      rcases he with rfl | rfl | rfl | rfl
      · exact ⟨1, by decide⟩
      · exact ⟨2, by decide⟩
      · exact ⟨3, by decide⟩
      · exact ⟨4, by decide⟩)).2.1.trans (by decide)

set_option maxRecDepth 100000 in
/-- C8: every data record is the record of an in-year event of the list, and
for an in-year event with Unix time `t` (the requested year being written with
four characters) the date field is `DD-MM-YYYY HH:MM:SS`, each of day, month,
hour, minute and second on two zero-padded digits and the year on four, where
year, month, day, hour, minute, second are the UTC calendar date and time of
`t`; no time zone enters.  For `t = 1700000000` and year `2023` the date is
`14-11-2023 22:13:20`. -/
theorem writeCSV_date_field (env : Env) (events : List Event)
    (year out integration asset label : String) (hlen : year.length = 4) :
    (∀ r ∈ (writeCSV env events year out integration asset label).records.tail,
      ∃ e ∈ events, inYear year e = true ∧ r = eventRecord integration asset label e) ∧
    (∀ (e : Event) (t : Int), ParseInt e.BlockTime = .ok t → inYear year e = true →
      ∃ Y M D h mi s : Nat, Y ≤ 9999 ∧ validCivil Y M D h mi s ∧
        unixOfCivil Y M D h mi s = t ∧
        (eventRecord integration asset label e).head? = some (String.mk
          (pad2 D ++ '-' :: (pad2 M ++ '-' :: (pad4 Y ++ ' ' ::
            (pad2 h ++ ':' :: (pad2 mi ++ ':' :: pad2 s))))))) ∧
    (eventRecord integration asset label { BlockTime := "1700000000" }).head?
      = some "14-11-2023 22:13:20" ∧
    inYear "2023" { BlockTime := "1700000000" } = true := by
  refine ⟨?_, ?_, ?_, ?_⟩
  · intro r hr
    unfold writeCSV at hr
    simp only [] at hr
    split at hr
    · simp at hr
    · split at hr
      · simp at hr
      · exact eventLoop_records_shape env year integration asset label events 1 r hr
  · intro e t ht hy
    obtain ⟨h1, h2⟩ := ParseInt_range e.BlockTime t ht
    have hfmt : (Unix t).UTC.Format "2006" = year := by
      simpa [inYear, ht] using hy
    rw [Format_2006] at hfmt
    have hl : (appendInt (absDate (Unix t).UTC.abs).1 4).length = 4 := by
      have := congrArg String.length hfmt
      simpa [hlen] using this
    obtain ⟨hy0, hy1⟩ := appendInt_four_length _ hl
    have hnowrap : -9223372028715321600 ≤ t := by
      by_contra hlt
      have := absDate_year_of_wrap t h1 (by omega)
      omega
    obtain ⟨hvalid, hunix, _⟩ := absDate_civil t hnowrap h2
    obtain ⟨n, hn⟩ := Int.eq_ofNat_of_zero_le hy0
    obtain ⟨hM1, hM2, hD1, hD2, hh, hmi, hs⟩ := hvalid
    have hD31 : (absDate (Unix t).UTC.abs).2.2 ≤ 31 := by
      refine le_trans hD2 ?_
      unfold daysInMonth
      split
      · split <;> omega
      · split <;> omega
    refine ⟨n, (absDate (Unix t).UTC.abs).2.1, (absDate (Unix t).UTC.abs).2.2,
      (absClock (Unix t).UTC.abs).1, (absClock (Unix t).UTC.abs).2.1,
      (absClock (Unix t).UTC.abs).2.2, by omega, ?_, ?_, ?_⟩
    · rw [← hn]
      exact ⟨hM1, hM2, hD1, hD2, hh, hmi, hs⟩
    · rw [← hn]
      exact hunix
    · simp only [eventRecord, row, blockTimeOf, ht, List.head?]
      rw [Format_dateTime, hn, appendInt_four n (by omega), appendInt_two _ (by omega),
        appendInt_two _ (by omega), appendInt_two _ (by omega), appendInt_two _ (by omega),
        appendInt_two _ (by omega)]
  · exact congrArg some (by decide)
  · decide

/-! ## Results on `writeCSV`: the amount field -/

theorem eventRecord_amount (integration asset label : String) (e : Event) (n : Int)
    (s : String) (he : SetString e.Rewards = some n) (hs : rewardText n = some s) :
    (eventRecord integration asset label e).get? 6 = some s := by
  simp [eventRecord, row, he, hs]

set_option maxRecDepth 100000 in
/-- C1 (counterexample): for `n = 16000000000000000001` (20 digits) the amount
written is `16.000000000000000002`, which reads back as `n + 1`. -/
theorem writeCSV_amount_not_exact :
    (writeCSV okEnv [{ BlockTime := "1700000000", Rewards := "16000000000000000001" }]
      "2023" "" "Lido stETH" "stETH" "Staking").records
      = [headers,
         ["14-11-2023 22:13:20", "Lido stETH", "Staking", "", "", "stETH",
          "16.000000000000000002", "", "", "Lido stETH staking reward", ""]] ∧
    SetString "16000000000000000001" = some 16000000000000000001 ∧
    parseAmount "16.000000000000000002" = some 16000000000000000002 ∧
    parseAmount "16.000000000000000002" ≠ some 16000000000000000001 := by
  decide

/-- C1 (amended): every data record is the record of an in-year event, and for
an in-year event whose rewards string is read as the integer `n ≥ 0` (in
particular the base-10 numeral of `n`) the amount field is a decimal with
exactly 18 fractional digits that reads back as some `N` with `|N - n| ≤ 1`;
the round trip is exact, `N = n`, whenever `n < 16 * 10 ^ 18`. -/
theorem writeCSV_amount_roundtrip (env : Env) (events : List Event)
    (year out integration asset label : String) (e : Event) (n : Nat)
    (he : SetString e.Rewards = some (n : Int)) :
    (∀ r ∈ (writeCSV env events year out integration asset label).records.tail,
      ∃ x ∈ events, inYear year x = true ∧ r = eventRecord integration asset label x) ∧
    SetString (String.mk (utoa n)) = some (n : Int) ∧
    ∃ (N : Nat) (amount : String),
      (eventRecord integration asset label e).get? 6 = some amount ∧
      amount = String.mk (utoa (N / 10 ^ 18) ++ '.' :: zeroPad 18 (utoa (N % 10 ^ 18))) ∧
      (zeroPad 18 (utoa (N % 10 ^ 18))).length = 18 ∧
      parseAmount amount = some N ∧
      N ≤ n + 1 ∧ n ≤ N + 1 ∧ (n < 16 * 10 ^ 18 → N = n) := by
  refine ⟨?_, SetString_utoa n, ?_⟩
  · intro r hr
    unfold writeCSV at hr
    simp only [] at hr
    split at hr
    · simp at hr
    · split at hr
      · simp at hr
      · exact eventLoop_records_shape env year integration asset label events 1 r hr
  · obtain ⟨N, hN, h1, h2, h3⟩ := rewardText_nat n
    have hfmt : fmtF 18 N = utoa (N / 10 ^ 18) ++ '.' :: zeroPad 18 (utoa (N % 10 ^ 18)) := by
      simp [fmtF]
    have hfrac : N % 10 ^ 18 < 10 ^ (17 + 1) := Nat.mod_lt _ (by norm_num)
    refine ⟨N, String.mk (fmtF 18 N), eventRecord_amount integration asset label e n _ he hN,
      by rw [hfmt], zeroPad_length 18 _ (utoa_length_le 17 _ hfrac), parseAmount_fmtF N,
      h1, h2, h3⟩

set_option maxRecDepth 100000 in
/-- An instance: a reward of 30 digits. -/
theorem writeCSV_amount_roundtrip_witness :
    ∃ (N : Nat) (amount : String),
      (eventRecord "Lido stETH" "stETH" "Staking"
        { BlockTime := "1700000000", Rewards := "123456789012345678901234567890" }).get? 6
          = some amount ∧
      amount = String.mk (utoa (N / 10 ^ 18) ++ '.' :: zeroPad 18 (utoa (N % 10 ^ 18))) ∧
      (zeroPad 18 (utoa (N % 10 ^ 18))).length = 18 ∧
      parseAmount amount = some N ∧
      N ≤ 123456789012345678901234567890 + 1 ∧ 123456789012345678901234567890 ≤ N + 1 ∧
      (123456789012345678901234567890 < 16 * 10 ^ 18 → N = 123456789012345678901234567890) :=
  (writeCSV_amount_roundtrip okEnv [] "2023" "" "Lido stETH" "stETH" "Staking"
    { BlockTime := "1700000000", Rewards := "123456789012345678901234567890" }
    123456789012345678901234567890 (by decide)).2.2

set_option maxRecDepth 100000 in
/-- C10: for `0 ≤ n < 16 * 10 ^ 18` the amount computed by the `big.Float`
pipeline is `n / 10 ^ 18` in decimal, a dot, and `n % 10 ^ 18` zero-padded to
18 digits, and this is the amount field of an event whose rewards are read as
`n`.  The quotient is held at precision 64, and for `n > 0` its value
`m * 2 ^ (-k)` has `k ≥ 60` and differs from `n / 10 ^ 18` by at most
`2 ^ (-61)`.  Examples: `1234567890123456789` and `0`. -/
theorem rewardText_exact_below_16e18 (n : Nat) (hn : n < 16 * 10 ^ 18) :
    rewardText (n : Int)
      = some (String.mk (utoa (n / 10 ^ 18) ++ '.' :: zeroPad 18 (utoa (n % 10 ^ 18)))) ∧
    (∀ (integration asset label : String) (e : Event), SetString e.Rewards = some (n : Int) →
      (eventRecord integration asset label e).get? 6
        = some (String.mk (utoa (n / 10 ^ 18) ++ '.' :: zeroPad 18 (utoa (n % 10 ^ 18))))) ∧
    (0 < n → ∃ m k : Nat,
      Quo (SetInt (n : Int)) (SetInt ((10 : Int) ^ 18))
        = some ⟨64, false, .finite, m, -(k : Int)⟩ ∧ 60 ≤ k ∧
      2 ^ 61 * (m * 10 ^ 18) ≤ 2 ^ 61 * (n * 2 ^ k) + 10 ^ 18 * 2 ^ k ∧
      2 ^ 61 * (n * 2 ^ k) ≤ 2 ^ 61 * (m * 10 ^ 18) + 10 ^ 18 * 2 ^ k) ∧
    rewardText 1234567890123456789 = some "1.234567890123456789" ∧
    rewardText 0 = some "0.000000000000000000" := by
  have hmain : rewardText (n : Int)
      = some (String.mk (utoa (n / 10 ^ 18) ++ '.' :: zeroPad 18 (utoa (n % 10 ^ 18)))) := by
    obtain ⟨N, hN, _, _, h3⟩ := rewardText_nat n
    rw [hN, h3 hn]
    simp [fmtF]
  refine ⟨hmain, ?_, ?_, by decide, by decide⟩
  · intro integration asset label e he
    exact eventRecord_amount integration asset label e n _ he hmain
  · intro hpos
    obtain ⟨m, k, hquo, _, hk60, he1, he2⟩ := Quo_decimals n hpos
    have hp : max (bitLen n) 64 = 64 := by
      have : bitLen n ≤ 64 := bitLen_le_of_lt n 64 (lt_trans hn (by norm_num))
      omega
    rw [hp] at hquo
    have h60 : 2 ^ 60 ≤ 2 ^ k := Nat.pow_le_pow_right (by norm_num) (hk60 hn)
    refine ⟨m, k, hquo, hk60 hn, ?_, ?_⟩
    · have e1 : 2 ^ 61 * (m * 10 ^ 18) = 2 ^ 60 * (2 * (m * 10 ^ 18)) := by ring
      have e2 : 2 ^ 61 * (n * 2 ^ k) + 10 ^ 18 * 2 ^ k
          = 2 ^ 60 * (2 * (n * 2 ^ k)) + 10 ^ 18 * 2 ^ k := by ring
      rw [e1, e2]
      calc 2 ^ 60 * (2 * (m * 10 ^ 18)) ≤ 2 ^ 60 * (2 * (n * 2 ^ k) + 10 ^ 18) :=
            Nat.mul_le_mul_left _ he1
        _ = 2 ^ 60 * (2 * (n * 2 ^ k)) + 10 ^ 18 * 2 ^ 60 := by ring
        _ ≤ 2 ^ 60 * (2 * (n * 2 ^ k)) + 10 ^ 18 * 2 ^ k :=
            Nat.add_le_add_left (Nat.mul_le_mul_left _ h60) _
    · have e1 : 2 ^ 61 * (n * 2 ^ k) = 2 ^ 60 * (2 * (n * 2 ^ k)) := by ring
      have e2 : 2 ^ 61 * (m * 10 ^ 18) + 10 ^ 18 * 2 ^ k
          = 2 ^ 60 * (2 * (m * 10 ^ 18)) + 10 ^ 18 * 2 ^ k := by ring
      rw [e1, e2]
      calc 2 ^ 60 * (2 * (n * 2 ^ k)) ≤ 2 ^ 60 * (2 * (m * 10 ^ 18) + 10 ^ 18) :=
            Nat.mul_le_mul_left _ he2
        _ = 2 ^ 60 * (2 * (m * 10 ^ 18)) + 10 ^ 18 * 2 ^ 60 := by ring
        _ ≤ 2 ^ 60 * (2 * (m * 10 ^ 18)) + 10 ^ 18 * 2 ^ k :=
            Nat.add_le_add_left (Nat.mul_le_mul_left _ h60) _

set_option maxRecDepth 100000 in
/-- An instance: the largest reward below `16 * 10 ^ 18`. -/
theorem rewardText_exact_below_16e18_witness :
    (15999999999999999999 : Nat) < 16 * 10 ^ 18 ∧
    rewardText ((15999999999999999999 : Nat) : Int)
      = some (String.mk (utoa (15999999999999999999 / 10 ^ 18) ++
          '.' :: zeroPad 18 (utoa (15999999999999999999 % 10 ^ 18)))) :=
  ⟨by norm_num, (rewardText_exact_below_16e18 15999999999999999999 (by norm_num)).1⟩

set_option maxRecDepth 100000 in
/-- An instance: the timestamp 1700000000 and the requested year 2023. -/
theorem writeCSV_date_field_witness :
    ∃ Y M D h mi s : Nat, Y ≤ 9999 ∧ validCivil Y M D h mi s ∧
      unixOfCivil Y M D h mi s = 1700000000 ∧
      (eventRecord "Lido stETH" "stETH" "Staking" { BlockTime := "1700000000" }).head?
        = some (String.mk (pad2 D ++ '-' :: (pad2 M ++ '-' :: (pad4 Y ++ ' ' ::
            (pad2 h ++ ':' :: (pad2 mi ++ ':' :: pad2 s)))))) :=
  (writeCSV_date_field okEnv [] "2023" "" "Lido stETH" "stETH" "Staking" (by decide)).2.1
    { BlockTime := "1700000000" } 1700000000 (by decide) (by decide)
end BlockpitLido
